import Mathlib

/-!
Verification of the `union-find-rs` disjoint-sets implementation.

Shallow embedding of `src/node.rs` (the per-item `Node` record),
`src/disjoint_sets.rs` (the `DisjointSets` structure with path compression
and sum-based union by rank) and `src/union_find.rs` (the `Error` type and
the public trait).  The Rust `HashMap`s are modelled as association lists;
`Cell`-based in-place field mutation is modelled by pointwise map updates;
the recursive `find_repr_inner` is modelled with explicit fuel, where a
`none` result corresponds to a panic (a failing `unwrap`) or divergence,
both of which are ruled out for well-formed states.
-/

namespace UnionFindRS

/-- Internal identifier type, `type Id = u64` in the source.  Modelled as `Nat`;
the single `next_id += 1` counter never reaches `2 ^ 64` in any feasible run. -/
abbrev Id := Nat

/-- `Node` from `src/node.rs`: an item wrapped with a parent pointer and a rank.
The `Cell` wrappers provide interior mutability in Rust and are transparent here. -/
structure Node where
  item : Id
  parent : Id
  rank : Nat
deriving DecidableEq, Repr

/-- `Node::new`: a fresh node is its own parent and has rank 1. -/
def Node.new (item : Id) : Node :=
  { item := item, parent := item, rank := 1 }

/-- `Node::set_parent`. -/
def Node.set_parent (n : Node) (parent : Id) : Node :=
  { n with parent := parent }

/-- `Node::set_rank`. -/
def Node.set_rank (n : Node) (rank : Nat) : Node :=
  { n with rank := rank }

/-- `Node::is_representative`: `self.item == self.parent.get()`. -/
def Node.is_representative (n : Node) : Bool :=
  n.item == n.parent

/-- `Error` from `src/union_find.rs`. -/
inductive Error where
  | ItemNotFound : Error
  | ItemExists : Error
deriving DecidableEq, Repr

/-- Association-list lookup, modelling `HashMap::get`. -/
def alookup {κ ν : Type} [DecidableEq κ] (m : List (κ × ν)) (k : κ) : Option ν :=
  match m with
  | [] => none
  | kv :: rest => if kv.1 = k then some kv.2 else alookup rest k

/-- Pointwise update of the `parent` field of the node stored at key `k`,
modelling `node.set_parent(..)` through the `Cell`. -/
def setNodeParent (m : List (Id × Node)) (k : Id) (p : Id) : List (Id × Node) :=
  m.map (fun kv => if kv.1 = k then (kv.1, kv.2.set_parent p) else kv)

/-- Pointwise update of the `rank` field of the node stored at key `k`,
modelling `node.set_rank(..)` through the `Cell`. -/
def setNodeRank (m : List (Id × Node)) (k : Id) (r : Nat) : List (Id × Node) :=
  m.map (fun kv => if kv.1 = k then (kv.1, kv.2.set_rank r) else kv)

/-- `DisjointSets<T>` from `src/disjoint_sets.rs`.  The two `HashMap`s are
modelled as association lists (all inserted keys are fresh, so insertion is
`cons`); `next_id` is the id counter. -/
structure DisjointSets (α : Type) where
  nodes : List (Id × Node)
  item_to_id : List (α × Id)
  next_id : Id
deriving DecidableEq, Repr

variable {α : Type} [DecidableEq α]

/-- `DisjointSets::new`. -/
def DisjointSets.new : DisjointSets α :=
  { nodes := [], item_to_id := [], next_id := 0 }

/-- `DisjointSets::contains`. -/
def contains (s : DisjointSets α) (item : α) : Bool :=
  (alookup s.item_to_id item).isSome

/-- `DisjointSets::num_sets`: count of nodes that are representatives. -/
def num_sets (s : DisjointSets α) : Nat :=
  (s.nodes.filter (fun kv => kv.2.is_representative)).length

/-- `DisjointSets::num_items`. -/
def num_items (s : DisjointSets α) : Nat :=
  s.item_to_id.length

/-- Fueled model of the recursive `find_repr_inner` (together with the initial
lookup done by `find_repr_id`): walk parent links to the representative and
re-point every visited node directly at it on the way back.  `none` models a
panicking `unwrap` (missing key) or running out of fuel (a parent cycle). -/
def find_repr_aux (fuel : Nat) (nodes : List (Id × Node)) (id : Id) :
    Option (Id × List (Id × Node)) :=
  match fuel with
  | 0 => none
  | fuel + 1 =>
    match alookup nodes id with
    | none => none
    | some node =>
      if node.is_representative then some (node.item, nodes)
      else
        match find_repr_aux fuel nodes node.parent with
        | none => none
        | some (representative, nodes') =>
          some (representative, setNodeParent nodes' id representative)

/-- `DisjointSets::find_repr_id`: find with path compression, acting on the
whole structure.  The fuel `s.nodes.length` is sufficient for every
well-formed state. -/
def find_repr_id (s : DisjointSets α) (id : Id) : Option (Id × DisjointSets α) :=
  match find_repr_aux s.nodes.length s.nodes id with
  | none => none
  | some (r, nodes') => some (r, { s with nodes := nodes' })

/-- `DisjointSets::set_size`: resolve the representative and return its rank. -/
def set_size (s : DisjointSets α) (item : α) :
    Option (Except Error Nat × DisjointSets α) :=
  match alookup s.item_to_id item with
  | none => some (.error .ItemNotFound, s)
  | some id =>
    match find_repr_id s id with
    | none => none
    | some (repr, s') =>
      match alookup s'.nodes repr with
      | none => none
      | some node => some (.ok node.rank, s')

/-- `DisjointSets::same_set` (from the `UnionFind` trait impl). -/
def same_set (s : DisjointSets α) (x y : α) :
    Option (Except Error Bool × DisjointSets α) :=
  match alookup s.item_to_id x with
  | none => some (.error .ItemNotFound, s)
  | some x_id =>
    match alookup s.item_to_id y with
    | none => some (.error .ItemNotFound, s)
    | some y_id =>
      match find_repr_id s x_id with
      | none => none
      | some (x_repr, s1) =>
        match find_repr_id s1 y_id with
        | none => none
        | some (y_repr, s2) => some (.ok (x_repr == y_repr), s2)

/-- `DisjointSets::make_set` (from the `UnionFind` trait impl). -/
def make_set (s : DisjointSets α) (item : α) :
    Except Error Unit × DisjointSets α :=
  if contains s item then (.error .ItemExists, s)
  else
    let id := s.next_id
    (.ok (),
      { nodes := (id, Node.new id) :: s.nodes,
        item_to_id := (item, id) :: s.item_to_id,
        next_id := id + 1 })

/-- `DisjointSets::union` (from the `UnionFind` trait impl): resolve both
representatives, then link the root of strictly smaller rank under the other
and set the surviving root's rank to the sum of both ranks. -/
def union (s : DisjointSets α) (x y : α) :
    Option (Except Error Unit × DisjointSets α) :=
  match alookup s.item_to_id x with
  | none => some (.error .ItemNotFound, s)
  | some x_id =>
    match alookup s.item_to_id y with
    | none => some (.error .ItemNotFound, s)
    | some y_id =>
      match find_repr_id s x_id with
      | none => none
      | some (x_repr, s1) =>
        match find_repr_id s1 y_id with
        | none => none
        | some (y_repr, s2) =>
          if x_repr = y_repr then some (.ok (), s2)
          else
            match alookup s2.nodes x_repr, alookup s2.nodes y_repr with
            | some x_node, some y_node =>
              let rank_sum := x_node.rank + y_node.rank
              if x_node.rank < y_node.rank then
                some (.ok (),
                  { s2 with
                    nodes := setNodeRank (setNodeParent s2.nodes x_repr y_repr)
                      y_repr rank_sum })
              else
                some (.ok (),
                  { s2 with
                    nodes := setNodeRank (setNodeParent s2.nodes y_repr x_repr)
                      x_repr rank_sum })
            | _, _ => none

/-- The public operations of the structure, for stating invariants that are
preserved by every operation. -/
inductive Op (α : Type) where
  | makeSetOp : α → Op α
  | unionOp : α → α → Op α
  | sameSetOp : α → α → Op α
  | setSizeOp : α → Op α
deriving DecidableEq

/-- The state after running one public operation, discarding its output.
`none` models a panic. -/
def stepState (s : DisjointSets α) : Op α → Option (DisjointSets α)
  | .makeSetOp a => some (make_set s a).2
  | .unionOp a b => (union s a b).map (fun r => r.2)
  | .sameSetOp a b => (same_set s a b).map (fun r => r.2)
  | .setSizeOp a => (set_size s a).map (fun r => r.2)

/-- The state after running a sequence of public operations. -/
def runOps (s : DisjointSets α) : List (Op α) → Option (DisjointSets α)
  | [] => some s
  | op :: ops =>
    match stepState s op with
    | none => none
    | some s' => runOps s' ops

/-- Pure (non-mutating) walk to the root: follow parent links until a node
that is its own parent is reached.  Used to *state* which representative a
node has, independently of path compression. -/
def root_of_aux (fuel : Nat) (nodes : List (Id × Node)) (id : Id) : Option Id :=
  match fuel with
  | 0 => none
  | fuel + 1 =>
    match alookup nodes id with
    | none => none
    | some n => if n.parent = id then some id else root_of_aux fuel nodes n.parent

/-- `r` is the representative reached by following parent links from `id`. -/
def RootIs (nodes : List (Id × Node)) (id r : Id) : Prop :=
  ∃ fuel, root_of_aux fuel nodes id = some r

/-- The list of nodes visited by the walk from `id` to its root (the root
included), with the given fuel. -/
def walkAux (fuel : Nat) (nodes : List (Id × Node)) (id : Id) : List Id :=
  match fuel with
  | 0 => []
  | fuel + 1 =>
    match alookup nodes id with
    | none => []
    | some n => if n.parent = id then [id] else id :: walkAux fuel nodes n.parent

/-- Every node stores its own map key in its `item` field (nodes are created
as `nodes.insert(id, Node::new(id))` and `item` is never mutated). -/
abbrev IEK (nodes : List (Id × Node)) : Prop :=
  ∀ kv ∈ nodes, kv.2.item = kv.1

/-- Well-formedness invariant of a `DisjointSets` state: both maps have
distinct keys, every id stored in `item_to_id` and every parent pointer is a
key of `nodes`, each node records its own key as `item`, all keys are below
`next_id`, the parent walk from every node terminates within `nodes.length`
steps, and every rank is positive. -/
abbrev WF (s : DisjointSets α) : Prop :=
  (s.nodes.map Prod.fst).Nodup ∧
  (s.item_to_id.map Prod.fst).Nodup ∧
  (∀ kv ∈ s.item_to_id, (alookup s.nodes kv.2).isSome) ∧
  (∀ kv ∈ s.nodes, (alookup s.nodes kv.2.parent).isSome) ∧
  IEK s.nodes ∧
  (∀ kv ∈ s.nodes, kv.1 < s.next_id) ∧
  (∀ kv ∈ s.nodes, (root_of_aux s.nodes.length s.nodes kv.1).isSome) ∧
  (∀ kv ∈ s.nodes, 0 < kv.2.rank)

/-- Items `a` and `b` are registered and their parent walks reach the same
representative: the semantic "same set" relation, stated without mutation. -/
def InSameSet (s : DisjointSets α) (a b : α) : Prop :=
  ∃ ia ib r, alookup s.item_to_id a = some ia ∧ alookup s.item_to_id b = some ib ∧
    RootIs s.nodes ia r ∧ RootIs s.nodes ib r

/-- Contribution of one map entry to the total size accounting: the rank if
the node is a representative, `0` otherwise. -/
def contribution (kv : Id × Node) : Nat :=
  if kv.2.is_representative then kv.2.rank else 0

/-- Sum of the ranks of all representative nodes (`sum of setSize(r)` over
all representatives `r`, since `set_size` of a representative is its rank). -/
def sum_rep_ranks (nodes : List (Id × Node)) : Nat :=
  (nodes.map contribution).sum

/-- Outcome of the linking step of `union`: the losing root `l` is re-parented
under the winning root `w`, the winner's rank becomes `rsum`, every other
node keeps its rank, and every parent walk that ended at `l` now ends at `w`. -/
def LinkOutcome (s s' : DisjointSets α) (l w : Id) (nl nw : Node) (rsum : Nat) : Prop :=
  alookup s'.nodes l = some (nl.set_parent w) ∧
  alookup s'.nodes w = some (nw.set_rank rsum) ∧
  (∀ k m, alookup s.nodes k = some m → k ≠ w →
    ∃ m', alookup s'.nodes k = some m' ∧ m'.rank = m.rank) ∧
  (∀ j ρ, RootIs s.nodes j ρ → RootIs s'.nodes j (if ρ = l then w else ρ))

/-- Frame of a query operation: the item map, the id counter, and every
node's item and rank are unchanged, and the partition over items is the
same before and after; only parent pointers may differ. -/
def QueryFrame (s s' : DisjointSets α) : Prop :=
  s'.item_to_id = s.item_to_id ∧ s'.next_id = s.next_id ∧
  (∀ k m, alookup s.nodes k = some m →
    ∃ m', alookup s'.nodes k = some m' ∧ m'.item = m.item ∧ m'.rank = m.rank) ∧
  (∀ a b : α, InSameSet s a b ↔ InSameSet s' a b)

/-! ### Association-list and pointwise-update lemmas -/

/-- Everything a single `find_repr_aux` call guarantees about its result map. -/
structure FindFacts (nodes nodes' : List (Id × Node)) (id r : Id) (fuel : Nat) : Prop where
  keys_eq : nodes'.map Prod.fst = nodes.map Prod.fst
  frame : ∀ k m, alookup nodes k = some m → ∃ m', alookup nodes' k = some m' ∧
    m'.item = m.item ∧ m'.rank = m.rank ∧ (m' = m ∨ m'.parent = r)
  rep_frame : ∀ k m, alookup nodes k = some m → m.is_representative = true →
    alookup nodes' k = some m
  root : RootIs nodes id r
  roots_mapped : ∀ j ρ, RootIs nodes j ρ → RootIs nodes' j ρ
  iek : IEK nodes'
  sum_eq : sum_rep_ranks nodes' = sum_rep_ranks nodes
  compressed : ∀ j ∈ walkAux fuel nodes id,
    ∃ nj, alookup nodes' j = some nj ∧ nj.parent = r

theorem alookup_cons {κ ν : Type} [DecidableEq κ] (kv : κ × ν) (m : List (κ × ν)) (k : κ) :
    alookup (kv :: m) k = if kv.1 = k then some kv.2 else alookup m k := rfl

theorem setNodeParent_cons (kv : Id × Node) (m : List (Id × Node)) (k p : Id) :
    setNodeParent (kv :: m) k p =
      (if kv.1 = k then (kv.1, kv.2.set_parent p) else kv) :: setNodeParent m k p := by
  simp only [setNodeParent, List.map_cons]

theorem setNodeRank_cons (kv : Id × Node) (m : List (Id × Node)) (k : Id) (r : Nat) :
    setNodeRank (kv :: m) k r =
      (if kv.1 = k then (kv.1, kv.2.set_rank r) else kv) :: setNodeRank m k r := by
  simp only [setNodeRank, List.map_cons]

theorem alookup_mem {κ ν : Type} [DecidableEq κ] {m : List (κ × ν)} {k : κ} {v : ν}
    (h : alookup m k = some v) : (k, v) ∈ m := by
  induction m with
  | nil => simp [alookup] at h
  | cons kv rest ih =>
    rw [alookup_cons] at h
    split_ifs at h with hk
    · obtain ⟨k1, v1⟩ := kv
      obtain rfl := Option.some.inj h
      cases hk
      exact List.mem_cons_self _ _
    · exact List.mem_cons_of_mem _ (ih h)

theorem alookup_isSome_iff {κ ν : Type} [DecidableEq κ] {m : List (κ × ν)} {k : κ} :
    (alookup m k).isSome ↔ k ∈ m.map Prod.fst := by
  induction m with
  | nil => simp [alookup]
  | cons kv rest ih =>
    rw [alookup_cons]
    by_cases hk : kv.1 = k
    · simp [hk]
    · simp only [if_neg hk, List.map_cons, List.mem_cons, ih]
      constructor
      · exact fun h => Or.inr h
      · rintro (h | h)
        · exact absurd h.symm hk
        · exact h

theorem mem_alookup {κ ν : Type} [DecidableEq κ] {m : List (κ × ν)}
    (hnd : (m.map Prod.fst).Nodup) {k : κ} {v : ν} (h : (k, v) ∈ m) :
    alookup m k = some v := by
  induction m with
  | nil => simp at h
  | cons kv rest ih =>
    rw [List.map_cons, List.nodup_cons] at hnd
    rcases List.mem_cons.mp h with h | h
    · rw [← h, alookup_cons, if_pos rfl]
    · rw [alookup_cons]
      split_ifs with hk
      · exact absurd (hk ▸ (List.mem_map.mpr ⟨(k, v), h, rfl⟩)) hnd.1
      · exact ih hnd.2 h

theorem alookup_functional {κ ν : Type} [DecidableEq κ] {m : List (κ × ν)}
    (hnd : (m.map Prod.fst).Nodup) {k : κ} {v v' : ν}
    (h : alookup m k = some v) (h' : (k, v') ∈ m) : v' = v := by
  have h2 := mem_alookup hnd h'
  rw [h] at h2
  exact (Option.some.inj h2).symm

theorem Node.set_parent_eq_self {n : Node} {p : Id} (h : n.parent = p) :
    n.set_parent p = n := by
  cases n; cases h; rfl

theorem setNodeParent_keys (m : List (Id × Node)) (k p : Id) :
    (setNodeParent m k p).map Prod.fst = m.map Prod.fst := by
  rw [setNodeParent, List.map_map]
  refine List.map_congr_left (fun kv _ => ?_)
  by_cases h : kv.1 = k <;> simp [h]

theorem setNodeRank_keys (m : List (Id × Node)) (k : Id) (r : Nat) :
    (setNodeRank m k r).map Prod.fst = m.map Prod.fst := by
  rw [setNodeRank, List.map_map]
  refine List.map_congr_left (fun kv _ => ?_)
  by_cases h : kv.1 = k <;> simp [h]

theorem setNodeParent_length (m : List (Id × Node)) (k p : Id) :
    (setNodeParent m k p).length = m.length := by
  simp [setNodeParent]

theorem setNodeRank_length (m : List (Id × Node)) (k : Id) (r : Nat) :
    (setNodeRank m k r).length = m.length := by
  simp [setNodeRank]

theorem alookup_setNodeParent_self (m : List (Id × Node)) (k p : Id) :
    alookup (setNodeParent m k p) k = (alookup m k).map (fun n => n.set_parent p) := by
  induction m with
  | nil => rfl
  | cons kv rest ih =>
    rw [setNodeParent_cons]
    by_cases h : kv.1 = k
    · rw [if_pos h, alookup_cons, alookup_cons]
      simp [h]
    · rw [if_neg h, alookup_cons, alookup_cons, if_neg h, if_neg h, ih]

theorem alookup_setNodeParent_ne (m : List (Id × Node)) {k j : Id} (h : j ≠ k) (p : Id) :
    alookup (setNodeParent m k p) j = alookup m j := by
  induction m with
  | nil => rfl
  | cons kv rest ih =>
    rw [setNodeParent_cons]
    by_cases hk : kv.1 = k
    · have hj : kv.1 ≠ j := fun hc => h (hc.symm.trans hk)
      rw [if_pos hk, alookup_cons, alookup_cons, if_neg hj]
      simp only [hj, if_false, ih]
    · rw [if_neg hk, alookup_cons, alookup_cons, ih]

theorem alookup_setNodeRank_self (m : List (Id × Node)) (k : Id) (r : Nat) :
    alookup (setNodeRank m k r) k = (alookup m k).map (fun n => n.set_rank r) := by
  induction m with
  | nil => rfl
  | cons kv rest ih =>
    rw [setNodeRank_cons]
    by_cases h : kv.1 = k
    · rw [if_pos h, alookup_cons, alookup_cons]
      simp [h]
    · rw [if_neg h, alookup_cons, alookup_cons, if_neg h, if_neg h, ih]

theorem alookup_setNodeRank_ne (m : List (Id × Node)) {k j : Id} (h : j ≠ k) (r : Nat) :
    alookup (setNodeRank m k r) j = alookup m j := by
  induction m with
  | nil => rfl
  | cons kv rest ih =>
    rw [setNodeRank_cons]
    by_cases hk : kv.1 = k
    · have hj : kv.1 ≠ j := fun hc => h (hc.symm.trans hk)
      rw [if_pos hk, alookup_cons, alookup_cons, if_neg hj]
      simp only [hj, if_false, ih]
    · rw [if_neg hk, alookup_cons, alookup_cons, ih]

theorem setNodeParent_of_not_mem {m : List (Id × Node)} {k : Id}
    (h : k ∉ m.map Prod.fst) (p : Id) : setNodeParent m k p = m := by
  induction m with
  | nil => rfl
  | cons kv rest ih =>
    rw [List.map_cons, List.mem_cons] at h
    push_neg at h
    rw [setNodeParent_cons, if_neg (fun hc => h.1 hc.symm), ih h.2]

theorem setNodeParent_eq_self {m : List (Id × Node)}
    (hnd : (m.map Prod.fst).Nodup) {k p : Id} {n : Node}
    (hk : alookup m k = some n) (hp : n.parent = p) :
    setNodeParent m k p = m := by
  induction m with
  | nil => simp [alookup] at hk
  | cons kv rest ih =>
    rw [List.map_cons, List.nodup_cons] at hnd
    rw [alookup_cons] at hk
    rw [setNodeParent_cons]
    split_ifs at hk with hkk
    · obtain rfl := Option.some.inj hk
      rw [if_pos hkk, Node.set_parent_eq_self hp,
        setNodeParent_of_not_mem (fun hc => hnd.1 (hkk ▸ hc)) p]
    · rw [if_neg hkk, ih hnd.2 hk]

theorem sum_rep_ranks_cons (kv : Id × Node) (m : List (Id × Node)) :
    sum_rep_ranks (kv :: m) = contribution kv + sum_rep_ranks m := by
  simp [sum_rep_ranks]

theorem sum_rep_ranks_setNodeParent {m : List (Id × Node)}
    (hnd : (m.map Prod.fst).Nodup) {k : Id} {n : Node}
    (hk : alookup m k = some n) (p : Id) :
    sum_rep_ranks (setNodeParent m k p) + contribution (k, n) =
      sum_rep_ranks m + contribution (k, n.set_parent p) := by
  induction m with
  | nil => simp [alookup] at hk
  | cons kv rest ih =>
    rw [List.map_cons, List.nodup_cons] at hnd
    rw [alookup_cons] at hk
    rw [setNodeParent_cons]
    split_ifs at hk with hkk
    · obtain rfl := Option.some.inj hk
      rw [if_pos hkk, setNodeParent_of_not_mem (fun hc => hnd.1 (hkk ▸ hc)) p,
        sum_rep_ranks_cons, sum_rep_ranks_cons]
      obtain ⟨k1, n1⟩ := kv
      obtain rfl : k1 = k := hkk
      dsimp only
      omega
    · rw [if_neg hkk, sum_rep_ranks_cons, sum_rep_ranks_cons]
      have h2 := ih hnd.2 hk
      omega

theorem setNodeRank_of_not_mem {m : List (Id × Node)} {k : Id}
    (h : k ∉ m.map Prod.fst) (r : Nat) : setNodeRank m k r = m := by
  induction m with
  | nil => rfl
  | cons kv rest ih =>
    rw [List.map_cons, List.mem_cons] at h
    push_neg at h
    rw [setNodeRank_cons, if_neg (fun hc => h.1 hc.symm), ih h.2]

theorem sum_rep_ranks_setNodeRank {m : List (Id × Node)}
    (hnd : (m.map Prod.fst).Nodup) {k : Id} {n : Node}
    (hk : alookup m k = some n) (r : Nat) :
    sum_rep_ranks (setNodeRank m k r) + contribution (k, n) =
      sum_rep_ranks m + contribution (k, n.set_rank r) := by
  induction m with
  | nil => simp [alookup] at hk
  | cons kv rest ih =>
    rw [List.map_cons, List.nodup_cons] at hnd
    rw [alookup_cons] at hk
    rw [setNodeRank_cons]
    split_ifs at hk with hkk
    · obtain rfl := Option.some.inj hk
      rw [if_pos hkk, setNodeRank_of_not_mem (fun hc => hnd.1 (hkk ▸ hc)) r,
        sum_rep_ranks_cons, sum_rep_ranks_cons]
      obtain ⟨k1, n1⟩ := kv
      obtain rfl : k1 = k := hkk
      dsimp only
      omega
    · rw [if_neg hkk, sum_rep_ranks_cons, sum_rep_ranks_cons]
      have h2 := ih hnd.2 hk
      omega

/-! ### Pure parent-walk lemmas -/

theorem root_of_aux_succ_none {nodes : List (Id × Node)} {id : Id} {f : Nat}
    (hl : alookup nodes id = none) : root_of_aux (f + 1) nodes id = none := by
  rw [root_of_aux, hl]

theorem root_of_aux_succ_some {nodes : List (Id × Node)} {id : Id} {n : Node} {f : Nat}
    (hl : alookup nodes id = some n) :
    root_of_aux (f + 1) nodes id =
      if n.parent = id then some id else root_of_aux f nodes n.parent := by
  rw [root_of_aux, hl]

theorem walkAux_succ_some {nodes : List (Id × Node)} {id : Id} {n : Node} {f : Nat}
    (hl : alookup nodes id = some n) :
    walkAux (f + 1) nodes id =
      if n.parent = id then [id] else id :: walkAux f nodes n.parent := by
  rw [walkAux, hl]

theorem root_of_aux_succ_shape {nodes : List (Id × Node)} {id r : Id} {f : Nat}
    (h : root_of_aux f nodes id = some r) :
    ∃ f' n, f = f' + 1 ∧ alookup nodes id = some n := by
  obtain ⟨f', rfl⟩ : ∃ f', f = f' + 1 := by
    cases f with
    | zero => simp [root_of_aux] at h
    | succ f' => exact ⟨f', rfl⟩
  cases hl : alookup nodes id with
  | none => rw [root_of_aux_succ_none hl] at h; exact absurd h (by simp)
  | some n => exact ⟨f', n, rfl, rfl⟩

theorem root_of_aux_mono {nodes : List (Id × Node)} :
    ∀ {fuel fuel' : Nat} {id r : Id}, root_of_aux fuel nodes id = some r →
      fuel ≤ fuel' → root_of_aux fuel' nodes id = some r := by
  intro fuel
  induction fuel with
  | zero => intro f' id r h _; simp [root_of_aux] at h
  | succ f ih =>
    intro f' id r h hle
    obtain ⟨f'', rfl⟩ : ∃ f'', f' = f'' + 1 := ⟨f' - 1, by omega⟩
    obtain ⟨_, n, _, hl⟩ := root_of_aux_succ_shape h
    rw [root_of_aux_succ_some hl] at h ⊢
    split_ifs at h ⊢ with hp
    · exact h
    · exact ih h (by omega)

theorem RootIs_unique {nodes : List (Id × Node)} {id r r' : Id}
    (h : RootIs nodes id r) (h' : RootIs nodes id r') : r = r' := by
  obtain ⟨f, hf⟩ := h
  obtain ⟨f', hf'⟩ := h'
  have h1 := root_of_aux_mono hf (Nat.le_max_left f f')
  have h2 := root_of_aux_mono hf' (Nat.le_max_right f f')
  rw [h1] at h2
  exact Option.some.inj h2

theorem root_of_aux_root {nodes : List (Id × Node)} :
    ∀ {fuel : Nat} {id r : Id}, root_of_aux fuel nodes id = some r →
      ∃ nr, alookup nodes r = some nr ∧ nr.parent = r := by
  intro fuel
  induction fuel with
  | zero => intro id r h; simp [root_of_aux] at h
  | succ f ih =>
    intro id r h
    obtain ⟨_, n, _, hl⟩ := root_of_aux_succ_shape h
    rw [root_of_aux_succ_some hl] at h
    split_ifs at h with hp
    · obtain rfl := Option.some.inj h
      exact ⟨n, hl, hp⟩
    · exact ih h

theorem RootIs_root {nodes : List (Id × Node)} {id r : Id} (h : RootIs nodes id r) :
    ∃ nr, alookup nodes r = some nr ∧ nr.parent = r := by
  obtain ⟨f, hf⟩ := h
  exact root_of_aux_root hf

theorem RootIs_of_parent_self {nodes : List (Id × Node)} {id : Id} {n : Node}
    (hl : alookup nodes id = some n) (hp : n.parent = id) : RootIs nodes id id :=
  ⟨1, by rw [root_of_aux_succ_some hl, if_pos hp]⟩

theorem RootIs_step {nodes : List (Id × Node)} {id : Id} {n : Node}
    (hl : alookup nodes id = some n) (hp : n.parent ≠ id) {r : Id} :
    RootIs nodes id r ↔ RootIs nodes n.parent r := by
  constructor
  · rintro ⟨f, hf⟩
    obtain ⟨f', _, hfeq, _⟩ := root_of_aux_succ_shape hf
    subst hfeq
    rw [root_of_aux_succ_some hl, if_neg hp] at hf
    exact ⟨f', hf⟩
  · rintro ⟨f, hf⟩
    exact ⟨f + 1, by rw [root_of_aux_succ_some hl, if_neg hp]; exact hf⟩

theorem RootIs_ne_of_nonroot {nodes : List (Id × Node)} {id r : Id} {n : Node}
    (h : RootIs nodes id r) (hl : alookup nodes id = some n) (hp : n.parent ≠ id) :
    id ≠ r := by
  rintro rfl
  obtain ⟨nr, hlr, hpr⟩ := RootIs_root h
  rw [hl] at hlr
  exact hp ((Option.some.inj hlr) ▸ hpr)

theorem walk_sub_keys {nodes : List (Id × Node)} :
    ∀ {fuel : Nat} {id j : Id}, j ∈ walkAux fuel nodes id → j ∈ nodes.map Prod.fst := by
  intro fuel
  induction fuel with
  | zero => intro id j h; simp [walkAux] at h
  | succ f ih =>
    intro id j h
    cases hl : alookup nodes id with
    | none => rw [walkAux, hl] at h; simp at h
    | some n =>
      rw [walkAux_succ_some hl] at h
      have hid : id ∈ nodes.map Prod.fst :=
        alookup_isSome_iff.mp (by rw [hl]; rfl)
      split_ifs at h with hp
      · rw [List.mem_singleton] at h
        exact h ▸ hid
      · rcases List.mem_cons.mp h with h | h
        · exact h ▸ hid
        · exact ih h

theorem walk_stable {nodes : List (Id × Node)} :
    ∀ {fuel fuel' : Nat} {id r r' : Id}, root_of_aux fuel nodes id = some r →
      root_of_aux fuel' nodes id = some r' →
      walkAux fuel nodes id = walkAux fuel' nodes id := by
  intro fuel
  induction fuel with
  | zero => intro f' id r r' h _; simp [root_of_aux] at h
  | succ f ih =>
    intro f' id r r' h h'
    obtain ⟨f'', n, hfeq, hl⟩ := root_of_aux_succ_shape h'
    subst hfeq
    rw [root_of_aux_succ_some hl] at h h'
    rw [walkAux_succ_some hl, walkAux_succ_some hl]
    split_ifs at h h' ⊢ with hp
    · rfl
    · rw [ih h h']

theorem walk_length_fuel {nodes : List (Id × Node)} :
    ∀ {fuel : Nat} {id r : Id}, root_of_aux fuel nodes id = some r →
      root_of_aux (walkAux fuel nodes id).length nodes id = some r := by
  intro fuel
  induction fuel with
  | zero => intro id r h; simp [root_of_aux] at h
  | succ f ih =>
    intro id r h
    obtain ⟨_, n, _, hl⟩ := root_of_aux_succ_shape h
    rw [root_of_aux_succ_some hl] at h
    rw [walkAux_succ_some hl]
    split_ifs at h ⊢ with hp
    · rw [List.length_singleton]
      rw [root_of_aux_succ_some hl, if_pos hp]
      exact h
    · rw [List.length_cons, root_of_aux_succ_some hl, if_neg hp]
      exact ih h

theorem mem_walk_decompose {nodes : List (Id × Node)} :
    ∀ {fuel : Nat} {id x r : Id}, x ∈ walkAux fuel nodes id →
      root_of_aux fuel nodes id = some r →
      ∃ pre g, g ≤ fuel ∧ walkAux fuel nodes id = pre ++ walkAux g nodes x ∧
        root_of_aux g nodes x = some r := by
  intro fuel
  induction fuel with
  | zero => intro id x r h _; simp [walkAux] at h
  | succ f ih =>
    intro id x r h hr
    obtain ⟨_, n, _, hl⟩ := root_of_aux_succ_shape hr
    rw [walkAux_succ_some hl] at h
    rw [root_of_aux_succ_some hl] at hr
    split_ifs at h hr with hp
    · rw [List.mem_singleton] at h
      subst h
      exact ⟨[], f + 1, le_refl _, by rw [List.nil_append], by
        rw [root_of_aux_succ_some hl, if_pos hp]; exact hr⟩
    · rcases List.mem_cons.mp h with h | h
      · subst h
        exact ⟨[], f + 1, le_refl _, by rw [List.nil_append], by
          rw [root_of_aux_succ_some hl, if_neg hp]; exact hr⟩
      · obtain ⟨pre, g, hg, heq, hroot⟩ := ih h hr
        refine ⟨id :: pre, g, by omega, ?_, hroot⟩
        rw [walkAux_succ_some hl, if_neg hp, heq, List.cons_append]

theorem walk_nodup {nodes : List (Id × Node)} :
    ∀ {fuel : Nat} {id r : Id}, root_of_aux fuel nodes id = some r →
      (walkAux fuel nodes id).Nodup := by
  intro fuel
  induction fuel with
  | zero => intro id r _; simp [walkAux]
  | succ f ih =>
    intro id r h
    obtain ⟨_, n, _, hl⟩ := root_of_aux_succ_shape h
    rw [root_of_aux_succ_some hl] at h
    rw [walkAux_succ_some hl]
    split_ifs at h ⊢ with hp
    · exact List.nodup_singleton _
    · rw [List.nodup_cons]
      refine ⟨?_, ih h⟩
      intro hmem
      obtain ⟨pre, g, hg, heq, hroot⟩ := mem_walk_decompose hmem h
      obtain ⟨g', rfl⟩ : ∃ g', g = g' + 1 := by
        cases g with
        | zero => simp [root_of_aux] at hroot
        | succ g' => exact ⟨g', rfl⟩
      rw [root_of_aux_succ_some hl, if_neg hp] at hroot
      have hwg : walkAux (g' + 1) nodes id = id :: walkAux g' nodes n.parent := by
        rw [walkAux_succ_some hl, if_neg hp]
      have hstab : walkAux g' nodes n.parent = walkAux f nodes n.parent :=
        walk_stable hroot h
      rw [hwg, hstab] at heq
      have hlen := congrArg List.length heq
      rw [List.length_append, List.length_cons] at hlen
      omega

theorem RootIs_fuel_length {nodes : List (Id × Node)} {id r : Id}
    (h : RootIs nodes id r) : root_of_aux nodes.length nodes id = some r := by
  obtain ⟨f, hf⟩ := h
  have hw := walk_length_fuel hf
  have hnd := walk_nodup hf
  have hcard : (walkAux f nodes id).length ≤ nodes.length := by
    have h1 : (walkAux f nodes id).toFinset.card = (walkAux f nodes id).length :=
      List.toFinset_card_of_nodup hnd
    have h2 : (walkAux f nodes id).toFinset ⊆ (nodes.map Prod.fst).toFinset := by
      intro a ha
      rw [List.mem_toFinset] at ha ⊢
      exact walk_sub_keys ha
    have h3 := Finset.card_le_card h2
    have h4 : (nodes.map Prod.fst).toFinset.card ≤ (nodes.map Prod.fst).length :=
      List.toFinset_card_le (nodes.map Prod.fst)
    rw [List.length_map] at h4
    omega
  exact root_of_aux_mono hw hcard

/-! ### Field-access helper lemmas -/

theorem Node.set_parent_parent (n : Node) (p : Id) : (n.set_parent p).parent = p := rfl

theorem Node.set_parent_item (n : Node) (p : Id) : (n.set_parent p).item = n.item := rfl

theorem Node.set_parent_rank (n : Node) (p : Id) : (n.set_parent p).rank = n.rank := rfl

theorem Node.set_rank_parent (n : Node) (r : Nat) : (n.set_rank r).parent = n.parent := rfl

theorem Node.set_rank_item (n : Node) (r : Nat) : (n.set_rank r).item = n.item := rfl

theorem Node.set_rank_rank (n : Node) (r : Nat) : (n.set_rank r).rank = r := rfl

/-! ### Root preservation under the three kinds of node mutation -/

theorem root_of_aux_setNodeParent {nodes : List (Id × Node)} {k r : Id} {n : Node}
    (hk : alookup nodes k = some n) (hnp : n.parent ≠ k) (hroot : RootIs nodes k r) :
    ∀ {f : Nat} {j ρ : Id}, root_of_aux f nodes j = some ρ →
      root_of_aux f (setNodeParent nodes k r) j = some ρ := by
  have hkr : k ≠ r := RootIs_ne_of_nonroot hroot hk hnp
  obtain ⟨nr, hlr, hpr⟩ := RootIs_root hroot
  intro f
  induction f with
  | zero => intro j ρ h; simp [root_of_aux] at h
  | succ f ih =>
    intro j ρ h
    by_cases hjk : j = k
    · rw [hjk] at h ⊢
      rw [root_of_aux_succ_some hk, if_neg hnp] at h
      have hρ : ρ = r := RootIs_unique ((RootIs_step hk hnp).mpr ⟨f, h⟩) hroot
      rw [hρ]
      have hl' : alookup (setNodeParent nodes k r) k = some (n.set_parent r) := by
        rw [alookup_setNodeParent_self, hk]
        rfl
      rw [root_of_aux_succ_some hl', Node.set_parent_parent,
        if_neg (fun hc => hkr hc.symm)]
      obtain ⟨f', rfl⟩ : ∃ f', f = f' + 1 := by
        cases f with
        | zero => simp [root_of_aux] at h
        | succ f' => exact ⟨f', rfl⟩
      have hlr' : alookup (setNodeParent nodes k r) r = some nr := by
        rw [alookup_setNodeParent_ne _ (fun hc => hkr hc.symm) r]
        exact hlr
      rw [root_of_aux_succ_some hlr', if_pos hpr]
    · obtain ⟨_, m, _, hlj⟩ := root_of_aux_succ_shape h
      have hlj' : alookup (setNodeParent nodes k r) j = some m := by
        rw [alookup_setNodeParent_ne _ hjk r]
        exact hlj
      rw [root_of_aux_succ_some hlj] at h
      rw [root_of_aux_succ_some hlj']
      split_ifs at h ⊢ with hp
      · exact h
      · exact ih h

theorem root_of_aux_link {nodes : List (Id × Node)} {l w : Id} {nl nw : Node}
    (hl : alookup nodes l = some nl) (hlp : nl.parent = l)
    (hw : alookup nodes w = some nw) (hwp : nw.parent = w) (hne : l ≠ w) :
    ∀ {f : Nat} {j ρ : Id}, root_of_aux f nodes j = some ρ →
      root_of_aux (f + 1) (setNodeParent nodes l w) j =
        some (if ρ = l then w else ρ) := by
  intro f
  induction f with
  | zero => intro j ρ h; simp [root_of_aux] at h
  | succ f ih =>
    intro j ρ h
    by_cases hjl : j = l
    · rw [hjl] at h ⊢
      rw [root_of_aux_succ_some hl, if_pos hlp] at h
      have hρ : ρ = l := (Option.some.inj h).symm
      rw [hρ, if_pos rfl]
      have hll' : alookup (setNodeParent nodes l w) l = some (nl.set_parent w) := by
        rw [alookup_setNodeParent_self, hl]
        rfl
      rw [root_of_aux_succ_some hll', Node.set_parent_parent,
        if_neg (fun hc => hne hc.symm)]
      have hlw' : alookup (setNodeParent nodes l w) w = some nw := by
        rw [alookup_setNodeParent_ne _ (fun hc => hne hc.symm) w]
        exact hw
      rw [root_of_aux_succ_some hlw', if_pos hwp]
    · obtain ⟨_, m, _, hlj⟩ := root_of_aux_succ_shape h
      have hlj' : alookup (setNodeParent nodes l w) j = some m := by
        rw [alookup_setNodeParent_ne _ hjl w]
        exact hlj
      rw [root_of_aux_succ_some hlj] at h
      split_ifs at h with hp
      · have hρ : ρ = j := (Option.some.inj h).symm
        rw [hρ, if_neg hjl, root_of_aux_succ_some hlj', if_pos hp]
      · rw [root_of_aux_succ_some hlj', if_neg hp]
        exact ih h

theorem root_of_aux_setNodeRank (k : Id) (rk : Nat) {nodes : List (Id × Node)} :
    ∀ {f : Nat} {j ρ : Id}, root_of_aux f nodes j = some ρ →
      root_of_aux f (setNodeRank nodes k rk) j = some ρ := by
  intro f
  induction f with
  | zero => intro j ρ h; simp [root_of_aux] at h
  | succ f ih =>
    intro j ρ h
    obtain ⟨_, m, _, hlj⟩ := root_of_aux_succ_shape h
    rw [root_of_aux_succ_some hlj] at h
    by_cases hjk : j = k
    · subst hjk
      have hlj' : alookup (setNodeRank nodes j rk) j = some (m.set_rank rk) := by
        rw [alookup_setNodeRank_self, hlj]
        rfl
      rw [root_of_aux_succ_some hlj', Node.set_rank_parent]
      split_ifs at h ⊢ with hp
      · exact h
      · exact ih h
    · have hlj' : alookup (setNodeRank nodes k rk) j = some m := by
        rw [alookup_setNodeRank_ne _ hjk rk]
        exact hlj
      rw [root_of_aux_succ_some hlj']
      split_ifs at h ⊢ with hp
      · exact h
      · exact ih h

theorem root_of_aux_cons_fresh {nodes : List (Id × Node)} {newk : Id} {nn : Node}
    (hfresh : newk ∉ nodes.map Prod.fst) :
    ∀ {f : Nat} {j ρ : Id}, root_of_aux f nodes j = some ρ →
      root_of_aux f ((newk, nn) :: nodes) j = some ρ := by
  intro f
  induction f with
  | zero => intro j ρ h; simp [root_of_aux] at h
  | succ f ih =>
    intro j ρ h
    obtain ⟨_, m, _, hlj⟩ := root_of_aux_succ_shape h
    have hjne : newk ≠ j := by
      intro hc
      exact hfresh (hc ▸ alookup_isSome_iff.mp (by rw [hlj]; rfl))
    have hlj' : alookup ((newk, nn) :: nodes) j = some m := by
      rw [alookup_cons, if_neg hjne]
      exact hlj
    rw [root_of_aux_succ_some hlj] at h
    rw [root_of_aux_succ_some hlj']
    split_ifs at h ⊢ with hp
    · exact h
    · exact ih h

/-! ### The find-with-compression specification -/

theorem is_representative_iff {nodes : List (Id × Node)} (hIEK : IEK nodes) {id : Id}
    {n : Node} (hl : alookup nodes id = some n) :
    n.is_representative = true ↔ n.parent = id := by
  have hitem : n.item = id := hIEK _ (alookup_mem hl)
  rw [Node.is_representative, hitem, beq_iff_eq, eq_comm]

theorem IEK_setNodeParent {m : List (Id × Node)} (h : IEK m) (k p : Id) :
    IEK (setNodeParent m k p) := by
  intro kv hkv
  rw [setNodeParent] at hkv
  obtain ⟨kv0, hkv0, heq⟩ := List.mem_map.mp hkv
  by_cases hk : kv0.1 = k
  · rw [if_pos hk] at heq
    rw [← heq]
    exact h kv0 hkv0
  · rw [if_neg hk] at heq
    rw [← heq]
    exact h kv0 hkv0

theorem IEK_setNodeRank {m : List (Id × Node)} (h : IEK m) (k : Id) (r : Nat) :
    IEK (setNodeRank m k r) := by
  intro kv hkv
  rw [setNodeRank] at hkv
  obtain ⟨kv0, hkv0, heq⟩ := List.mem_map.mp hkv
  by_cases hk : kv0.1 = k
  · rw [if_pos hk] at heq
    rw [← heq]
    exact h kv0 hkv0
  · rw [if_neg hk] at heq
    rw [← heq]
    exact h kv0 hkv0

theorem contribution_eq_zero {k : Id} {n : Node} (h : n.is_representative = false) :
    contribution (k, n) = 0 := by
  simp [contribution, h]

theorem find_repr_aux_rep {nodes : List (Id × Node)} {id : Id} {n : Node} {f : Nat}
    (hl : alookup nodes id = some n) (hrep : n.is_representative = true) :
    find_repr_aux (f + 1) nodes id = some (n.item, nodes) := by
  rw [find_repr_aux, hl]
  simp [hrep]

theorem find_repr_aux_nonrep {nodes : List (Id × Node)} {id : Id} {n : Node} {f : Nat}
    (hl : alookup nodes id = some n) (hrep : n.is_representative = false) {r : Id}
    {nodes1 : List (Id × Node)}
    (hrec : find_repr_aux f nodes n.parent = some (r, nodes1)) :
    find_repr_aux (f + 1) nodes id = some (r, setNodeParent nodes1 id r) := by
  rw [find_repr_aux, hl]
  simp [hrep, hrec]

theorem find_repr_aux_succ_shape {nodes nodes' : List (Id × Node)} {id r : Id} {f : Nat}
    (h : find_repr_aux f nodes id = some (r, nodes')) :
    ∃ f' n, f = f' + 1 ∧ alookup nodes id = some n := by
  obtain ⟨f', rfl⟩ : ∃ f', f = f' + 1 := by
    cases f with
    | zero => simp [find_repr_aux] at h
    | succ f' => exact ⟨f', rfl⟩
  cases hl : alookup nodes id with
  | none => rw [find_repr_aux, hl] at h; exact absurd h (by simp)
  | some n => exact ⟨f', n, rfl, rfl⟩

theorem find_repr_aux_facts {nodes : List (Id × Node)}
    (hnd : (nodes.map Prod.fst).Nodup) (hIEK : IEK nodes) :
    ∀ {f : Nat} {id r : Id} {nodes' : List (Id × Node)},
      find_repr_aux f nodes id = some (r, nodes') → FindFacts nodes nodes' id r f := by
  intro f
  induction f with
  | zero => intro id r nodes' h; simp [find_repr_aux] at h
  | succ f ih =>
    intro id r nodes' h
    obtain ⟨_, n, _, hl⟩ := find_repr_aux_succ_shape h
    cases hrep : n.is_representative with
    | true =>
      rw [find_repr_aux_rep hl hrep] at h
      have hpair := Option.some.inj h
      have hr : n.item = r := congrArg Prod.fst hpair
      have hn : nodes = nodes' := congrArg Prod.snd hpair
      subst hn
      have hpid : n.parent = id := (is_representative_iff hIEK hl).mp hrep
      have hrid : r = id := by rw [← hr]; exact hIEK _ (alookup_mem hl)
      constructor
      · rfl
      · exact fun k m hm => ⟨m, hm, rfl, rfl, Or.inl rfl⟩
      · exact fun k m hm _ => hm
      · rw [hrid]; exact RootIs_of_parent_self hl hpid
      · exact fun j ρ hρ => hρ
      · exact hIEK
      · rfl
      · intro j hj
        rw [walkAux_succ_some hl, if_pos hpid, List.mem_singleton] at hj
        subst hj
        exact ⟨n, hl, hpid.trans hrid.symm⟩
    | false =>
      have hpid : n.parent ≠ id := by
        intro hc
        rw [(is_representative_iff hIEK hl).mpr hc] at hrep
        cases hrep
      cases hrec : find_repr_aux f nodes n.parent with
      | none =>
        rw [find_repr_aux, hl] at h
        simp [hrep, hrec] at h
      | some pr =>
        obtain ⟨r0, nodes1⟩ := pr
        rw [find_repr_aux_nonrep hl hrep hrec] at h
        have hpair := Option.some.inj h
        have hr : r0 = r := congrArg Prod.fst hpair
        have hn : setNodeParent nodes1 id r0 = nodes' := congrArg Prod.snd hpair
        rw [hr] at hrec hn
        have IH := ih hrec
        have hroot : RootIs nodes id r := (RootIs_step hl hpid).mpr IH.root
        have hidr : id ≠ r := RootIs_ne_of_nonroot hroot hl hpid
        obtain ⟨n1, hln1, hitem1, hrank1, hor1⟩ := IH.frame id n hl
        have hn1p : n1.parent ≠ id := by
          rcases hor1 with h1 | h1
          · rw [h1]; exact hpid
          · rw [h1]; exact fun hc => hidr hc.symm
        have hroot1 : RootIs nodes1 id r := IH.roots_mapped id r hroot
        have hnd1 : (nodes1.map Prod.fst).Nodup := by rw [IH.keys_eq]; exact hnd
        have hitemid : n1.item = id := by rw [hitem1]; exact hIEK _ (alookup_mem hl)
        have hlself : alookup (setNodeParent nodes1 id r) id = some (n1.set_parent r) := by
          rw [alookup_setNodeParent_self, hln1]
          rfl
        subst hn
        constructor
        · rw [setNodeParent_keys]; exact IH.keys_eq
        · intro k m hm
          obtain ⟨m1, hm1, hit, hrk, hor⟩ := IH.frame k m hm
          by_cases hk : k = id
          · subst hk
            obtain rfl : n1 = m1 := Option.some.inj (hln1.symm.trans hm1)
            refine ⟨n1.set_parent r, hlself, ?_, ?_, Or.inr (Node.set_parent_parent _ _)⟩
            · rw [Node.set_parent_item]; exact hit
            · rw [Node.set_parent_rank]; exact hrk
          · refine ⟨m1, ?_, hit, hrk, hor⟩
            rw [alookup_setNodeParent_ne _ hk r]
            exact hm1
        · intro k m hm hmrep
          have hm1 := IH.rep_frame k m hm hmrep
          have hk : k ≠ id := by
            intro hc
            rw [hc, hl] at hm
            obtain rfl := Option.some.inj hm
            rw [hmrep] at hrep
            cases hrep
          rw [alookup_setNodeParent_ne _ hk r]
          exact hm1
        · exact hroot
        · intro j ρ hρ
          obtain ⟨f2, hf2⟩ := IH.roots_mapped j ρ hρ
          exact ⟨f2, root_of_aux_setNodeParent hln1 hn1p hroot1 hf2⟩
        · exact IEK_setNodeParent IH.iek id r
        · have h1 := sum_rep_ranks_setNodeParent hnd1 hln1 r
          have hb : n1.is_representative = false := by
            cases hb0 : n1.is_representative with
            | false => rfl
            | true => exact absurd ((is_representative_iff IH.iek hln1).mp hb0) hn1p
          have hb2 : (n1.set_parent r).is_representative = false := by
            show ((n1.set_parent r).item == (n1.set_parent r).parent) = false
            rw [Node.set_parent_item, Node.set_parent_parent, hitemid]
            exact beq_eq_false_iff_ne.mpr hidr
          rw [contribution_eq_zero hb, contribution_eq_zero hb2] at h1
          have h2 := IH.sum_eq
          omega
        · intro j hj
          rw [walkAux_succ_some hl, if_neg hpid] at hj
          rcases List.mem_cons.mp hj with hj | hj
          · subst hj
            exact ⟨n1.set_parent r, hlself, Node.set_parent_parent _ _⟩
          · obtain ⟨nj, hnj, hnjp⟩ := IH.compressed j hj
            by_cases hk : j = id
            · subst hk
              exact ⟨n1.set_parent r, hlself, Node.set_parent_parent _ _⟩
            · refine ⟨nj, ?_, hnjp⟩
              rw [alookup_setNodeParent_ne _ hk r]
              exact hnj

theorem find_repr_aux_total {nodes : List (Id × Node)} (hIEK : IEK nodes) :
    ∀ {f : Nat} {id r : Id}, root_of_aux f nodes id = some r →
      ∃ nodes', find_repr_aux f nodes id = some (r, nodes') := by
  intro f
  induction f with
  | zero => intro id r h; simp [root_of_aux] at h
  | succ f ih =>
    intro id r h
    obtain ⟨_, n, _, hl⟩ := root_of_aux_succ_shape h
    rw [root_of_aux_succ_some hl] at h
    split_ifs at h with hp
    · have hr : r = id := (Option.some.inj h).symm
      have hrep : n.is_representative = true := (is_representative_iff hIEK hl).mpr hp
      refine ⟨nodes, ?_⟩
      rw [find_repr_aux_rep hl hrep, hr]
      have hitem : n.item = id := hIEK _ (alookup_mem hl)
      rw [hitem]
    · obtain ⟨nodes1, hrec⟩ := ih h
      have hrep : n.is_representative = false := by
        cases hb0 : n.is_representative with
        | false => rfl
        | true => exact absurd ((is_representative_iff hIEK hl).mp hb0) hp
      exact ⟨setNodeParent nodes1 id r, find_repr_aux_nonrep hl hrep hrec⟩

/-! ### State-level find specification and well-formedness preservation -/

theorem keys_lookup_back {nodes nodes' : List (Id × Node)}
    (hkeys : nodes'.map Prod.fst = nodes.map Prod.fst) {k : Id} {m' : Node}
    (h : alookup nodes' k = some m') : ∃ m, alookup nodes k = some m := by
  have hs : (alookup nodes k).isSome := by
    rw [alookup_isSome_iff, ← hkeys]
    exact alookup_isSome_iff.mp (by rw [h]; rfl)
  exact Option.isSome_iff_exists.mp hs

theorem keys_mem_entry {κ ν : Type} {m : List (κ × ν)} {k : κ}
    (h : k ∈ m.map Prod.fst) : ∃ v, (k, v) ∈ m := by
  obtain ⟨kv, hkv, heq⟩ := List.mem_map.mp h
  exact ⟨kv.2, by rw [← heq]; exact hkv⟩

theorem find_repr_id_eq_some {s : DisjointSets α} {id r : Id} {nodes' : List (Id × Node)}
    (h : find_repr_aux s.nodes.length s.nodes id = some (r, nodes')) :
    find_repr_id s id = some (r, { s with nodes := nodes' }) := by
  simp only [find_repr_id, h]

theorem WF_of_facts {s : DisjointSets α} (hwf : WF s) {nodes' : List (Id × Node)}
    {id r : Id} (facts : FindFacts s.nodes nodes' id r s.nodes.length) :
    WF { s with nodes := nodes' } := by
  obtain ⟨hnd, hind, hids, hpar, hiek, hlt, hrooted, hpos⟩ := hwf
  have hnd' : (nodes'.map Prod.fst).Nodup := by rw [facts.keys_eq]; exact hnd
  obtain ⟨nr, hlr, hpr⟩ := RootIs_root facts.root
  refine ⟨hnd', hind, ?_, ?_, facts.iek, ?_, ?_, ?_⟩
  · intro kv hkv
    rw [alookup_isSome_iff, facts.keys_eq, ← alookup_isSome_iff]
    exact hids kv hkv
  · intro kv hkv
    have hm' : alookup nodes' kv.1 = some kv.2 := mem_alookup hnd' hkv
    obtain ⟨m, hm⟩ := keys_lookup_back facts.keys_eq hm'
    obtain ⟨m'', hm'', _, _, hor⟩ := facts.frame kv.1 m hm
    obtain rfl : kv.2 = m'' := Option.some.inj (hm'.symm.trans hm'')
    rcases hor with hsame | hpar'
    · rw [hsame]
      rw [alookup_isSome_iff, facts.keys_eq, ← alookup_isSome_iff]
      exact hpar (kv.1, m) (alookup_mem hm)
    · rw [hpar']
      rw [alookup_isSome_iff, facts.keys_eq, ← alookup_isSome_iff]
      rw [hlr]
      rfl
  · intro kv hkv
    have hk : kv.1 ∈ s.nodes.map Prod.fst := by
      rw [← facts.keys_eq]
      exact List.mem_map.mpr ⟨kv, hkv, rfl⟩
    obtain ⟨v, hv⟩ := keys_mem_entry hk
    exact hlt (kv.1, v) hv
  · intro kv hkv
    have hk : kv.1 ∈ s.nodes.map Prod.fst := by
      rw [← facts.keys_eq]
      exact List.mem_map.mpr ⟨kv, hkv, rfl⟩
    obtain ⟨v, hv⟩ := keys_mem_entry hk
    obtain ⟨ρ, hρ⟩ := Option.isSome_iff_exists.mp (hrooted (kv.1, v) hv)
    have hr1 : RootIs nodes' kv.1 ρ := facts.roots_mapped kv.1 ρ ⟨s.nodes.length, hρ⟩
    rw [RootIs_fuel_length hr1]
    rfl
  · intro kv hkv
    have hm' : alookup nodes' kv.1 = some kv.2 := mem_alookup hnd' hkv
    obtain ⟨m, hm⟩ := keys_lookup_back facts.keys_eq hm'
    obtain ⟨m'', hm'', _, hrk, _⟩ := facts.frame kv.1 m hm
    obtain rfl : kv.2 = m'' := Option.some.inj (hm'.symm.trans hm'')
    rw [hrk]
    exact hpos (kv.1, m) (alookup_mem hm)

theorem find_repr_id_spec {s : DisjointSets α} (hwf : WF s) {id : Id} {n : Node}
    (hl : alookup s.nodes id = some n) :
    ∃ r nodes', find_repr_id s id = some (r, { s with nodes := nodes' }) ∧
      nodes'.length = s.nodes.length ∧
      FindFacts s.nodes nodes' id r s.nodes.length ∧
      WF { s with nodes := nodes' } := by
  obtain ⟨hnd, hind, hids, hpar, hiek, hlt, hrooted, hpos⟩ := hwf
  obtain ⟨r, hro⟩ :=
    Option.isSome_iff_exists.mp (hrooted (id, n) (alookup_mem hl))
  obtain ⟨nodes', hfind⟩ := find_repr_aux_total hiek hro
  have facts := find_repr_aux_facts hnd hiek hfind
  refine ⟨r, nodes', find_repr_id_eq_some hfind, ?_, facts,
    WF_of_facts ⟨hnd, hind, hids, hpar, hiek, hlt, hrooted, hpos⟩ facts⟩
  have hlen := congrArg List.length facts.keys_eq
  rw [List.length_map, List.length_map] at hlen
  exact hlen

theorem contribution_rep {k : Id} {n : Node} (h : n.is_representative = true) :
    contribution (k, n) = n.rank := by
  simp [contribution, h]

theorem make_set_of_not_contains {s : DisjointSets α} {x : α} (h : contains s x = false) :
    make_set s x = (.ok (),
      { nodes := (s.next_id, Node.new s.next_id) :: s.nodes,
        item_to_id := (x, s.next_id) :: s.item_to_id,
        next_id := s.next_id + 1 }) := by
  rw [make_set, if_neg (by rw [h]; exact Bool.false_ne_true)]

theorem make_set_of_contains {s : DisjointSets α} {x : α} (h : contains s x = true) :
    make_set s x = (.error .ItemExists, s) := by
  rw [make_set, if_pos h]

theorem next_id_fresh {s : DisjointSets α} (hwf : WF s) :
    s.next_id ∉ s.nodes.map Prod.fst := by
  obtain ⟨-, -, -, -, -, hlt, -, -⟩ := hwf
  intro hmem
  obtain ⟨v, hv⟩ := keys_mem_entry hmem
  exact absurd (hlt (s.next_id, v) hv) (lt_irrefl _)

theorem alookup_cons_isSome {κ ν : Type} [DecidableEq κ] {m : List (κ × ν)} {k : κ}
    (kv : κ × ν) (h : (alookup m k).isSome) : (alookup (kv :: m) k).isSome := by
  rw [alookup_cons]
  split_ifs with hk
  · rfl
  · exact h

theorem WF_make_set {s : DisjointSets α} (hwf : WF s) {x : α}
    (h : contains s x = false) :
    WF { nodes := (s.next_id, Node.new s.next_id) :: s.nodes,
         item_to_id := (x, s.next_id) :: s.item_to_id,
         next_id := s.next_id + 1 : DisjointSets α } := by
  obtain ⟨hnd, hind, hids, hpar, hiek, hlt, hrooted, hpos⟩ := hwf
  have hfresh := next_id_fresh ⟨hnd, hind, hids, hpar, hiek, hlt, hrooted, hpos⟩
  have hheadl : alookup ((s.next_id, Node.new s.next_id) :: s.nodes) s.next_id =
      some (Node.new s.next_id) := by
    rw [alookup_cons, if_pos rfl]
  refine ⟨?_, ?_, ?_, ?_, ?_, ?_, ?_, ?_⟩
  · rw [List.map_cons, List.nodup_cons]
    exact ⟨hfresh, hnd⟩
  · rw [List.map_cons, List.nodup_cons]
    refine ⟨?_, hind⟩
    intro hmem
    obtain ⟨v, hv⟩ := keys_mem_entry hmem
    have : (alookup s.item_to_id x).isSome := by
      rw [mem_alookup hind hv]
      rfl
    rw [contains] at h
    rw [h] at this
    cases this
  · intro kv hkv
    rcases List.mem_cons.mp hkv with hkv | hkv
    · rw [hkv]
      rw [hheadl]
      rfl
    · exact alookup_cons_isSome _ (hids kv hkv)
  · intro kv hkv
    rcases List.mem_cons.mp hkv with hkv | hkv
    · rw [hkv]
      show (alookup _ (Node.new s.next_id).parent).isSome
      show (alookup _ s.next_id).isSome
      rw [hheadl]
      rfl
    · exact alookup_cons_isSome _ (hpar kv hkv)
  · intro kv hkv
    rcases List.mem_cons.mp hkv with hkv | hkv
    · rw [hkv]
      rfl
    · exact hiek kv hkv
  · intro kv hkv
    rcases List.mem_cons.mp hkv with hkv | hkv
    · rw [hkv]
      exact Nat.lt_succ_self _
    · exact Nat.lt_succ_of_lt (hlt kv hkv)
  · intro kv hkv
    rw [List.length_cons]
    rcases List.mem_cons.mp hkv with hkv | hkv
    · rw [hkv]
      rw [root_of_aux_succ_some hheadl,
        if_pos (show (Node.new s.next_id).parent = s.next_id from rfl)]
      rfl
    · obtain ⟨ρ, hρ⟩ := Option.isSome_iff_exists.mp (hrooted kv hkv)
      have h1 : root_of_aux s.nodes.length
          ((s.next_id, Node.new s.next_id) :: s.nodes) kv.1 = some ρ :=
        root_of_aux_cons_fresh hfresh hρ
      rw [root_of_aux_mono h1 (Nat.le_succ _)]
      rfl
  · intro kv hkv
    rcases List.mem_cons.mp hkv with hkv | hkv
    · rw [hkv]
      exact Nat.one_pos
    · exact hpos kv hkv

theorem link_facts {s2 : DisjointSets α} (hwf2 : WF s2) {l w : Id} {nl nw : Node}
    (hl : alookup s2.nodes l = some nl) (hw : alookup s2.nodes w = some nw)
    (hlp : nl.parent = l) (hwp : nw.parent = w) (hne : l ≠ w) {rsum : Nat}
    (hrsum : rsum = nl.rank + nw.rank) :
    WF { s2 with nodes := setNodeRank (setNodeParent s2.nodes l w) w rsum } ∧
    alookup (setNodeRank (setNodeParent s2.nodes l w) w rsum) l =
      some (nl.set_parent w) ∧
    alookup (setNodeRank (setNodeParent s2.nodes l w) w rsum) w =
      some (nw.set_rank rsum) ∧
    (∀ k m, alookup s2.nodes k = some m → k ≠ l → k ≠ w →
      alookup (setNodeRank (setNodeParent s2.nodes l w) w rsum) k = some m) ∧
    (∀ j ρ, RootIs s2.nodes j ρ →
      RootIs (setNodeRank (setNodeParent s2.nodes l w) w rsum) j
        (if ρ = l then w else ρ)) ∧
    sum_rep_ranks (setNodeRank (setNodeParent s2.nodes l w) w rsum) =
      sum_rep_ranks s2.nodes ∧
    (setNodeRank (setNodeParent s2.nodes l w) w rsum).length = s2.nodes.length := by
  obtain ⟨hnd, hind, hids, hpar, hiek, hlt, hrooted, hpos⟩ := hwf2
  have hkeys : (setNodeRank (setNodeParent s2.nodes l w) w rsum).map Prod.fst =
      s2.nodes.map Prod.fst := by
    rw [setNodeRank_keys, setNodeParent_keys]
  have hnd' : ((setNodeRank (setNodeParent s2.nodes l w) w rsum).map Prod.fst).Nodup := by
    rw [hkeys]; exact hnd
  have hlookl : alookup (setNodeRank (setNodeParent s2.nodes l w) w rsum) l =
      some (nl.set_parent w) := by
    rw [alookup_setNodeRank_ne _ hne rsum, alookup_setNodeParent_self, hl]
    rfl
  have hlookw : alookup (setNodeRank (setNodeParent s2.nodes l w) w rsum) w =
      some (nw.set_rank rsum) := by
    rw [alookup_setNodeRank_self, alookup_setNodeParent_ne _ (fun hc => hne hc.symm) w, hw]
    rfl
  have hlookother : ∀ k m, alookup s2.nodes k = some m → k ≠ l → k ≠ w →
      alookup (setNodeRank (setNodeParent s2.nodes l w) w rsum) k = some m := by
    intro k m hm hkl hkw
    rw [alookup_setNodeRank_ne _ hkw rsum, alookup_setNodeParent_ne _ hkl w]
    exact hm
  have hroots : ∀ j ρ, RootIs s2.nodes j ρ →
      RootIs (setNodeRank (setNodeParent s2.nodes l w) w rsum) j
        (if ρ = l then w else ρ) := by
    rintro j ρ ⟨f, hf⟩
    exact ⟨f + 1, root_of_aux_setNodeRank w rsum (root_of_aux_link hl hlp hw hwp hne hf)⟩
  have hrepl : nl.is_representative = true := (is_representative_iff hiek hl).mpr hlp
  have hrepw : nw.is_representative = true := (is_representative_iff hiek hw).mpr hwp
  have hnditem : nl.item = l := hiek _ (alookup_mem hl)
  have hwitem : nw.item = w := hiek _ (alookup_mem hw)
  have hndp : ((setNodeParent s2.nodes l w).map Prod.fst).Nodup := by
    rw [setNodeParent_keys]; exact hnd
  have hsum : sum_rep_ranks (setNodeRank (setNodeParent s2.nodes l w) w rsum) =
      sum_rep_ranks s2.nodes := by
    have h1 := sum_rep_ranks_setNodeParent hnd hl w
    have hlw' : alookup (setNodeParent s2.nodes l w) w = some nw := by
      rw [alookup_setNodeParent_ne _ (fun hc => hne hc.symm) w]
      exact hw
    have h2 := sum_rep_ranks_setNodeRank hndp hlw' rsum
    have hc1 : contribution (l, nl) = nl.rank := contribution_rep hrepl
    have hc2 : contribution (l, nl.set_parent w) = 0 := by
      refine contribution_eq_zero ?_
      show ((nl.set_parent w).item == (nl.set_parent w).parent) = false
      rw [Node.set_parent_item, Node.set_parent_parent, hnditem]
      exact beq_eq_false_iff_ne.mpr hne
    have hc3 : contribution (w, nw) = nw.rank := contribution_rep hrepw
    have hc4 : contribution (w, nw.set_rank rsum) = rsum := by
      have : (nw.set_rank rsum).is_representative = true := by
        show ((nw.set_rank rsum).item == (nw.set_rank rsum).parent) = true
        rw [Node.set_rank_item, Node.set_rank_parent]
        exact hrepw
      rw [contribution_rep this, Node.set_rank_rank]
    rw [hc1, hc2] at h1
    rw [hc3, hc4] at h2
    omega
  have hlen : (setNodeRank (setNodeParent s2.nodes l w) w rsum).length =
      s2.nodes.length := by
    rw [setNodeRank_length, setNodeParent_length]
  refine ⟨⟨hnd', hind, ?_, ?_, ?_, ?_, ?_, ?_⟩, hlookl, hlookw, hlookother, hroots,
    hsum, hlen⟩
  · intro kv hkv
    rw [alookup_isSome_iff, hkeys, ← alookup_isSome_iff]
    exact hids kv hkv
  · intro kv hkv
    have hm' : alookup (setNodeRank (setNodeParent s2.nodes l w) w rsum) kv.1 =
        some kv.2 := mem_alookup hnd' hkv
    by_cases hkl : kv.1 = l
    · rw [hkl] at hm'
      have hveq : kv.2 = nl.set_parent w := Option.some.inj (hm'.symm.trans hlookl)
      rw [hveq, Node.set_parent_parent, hlookw]
      rfl
    · by_cases hkw : kv.1 = w
      · rw [hkw] at hm'
        have hveq : kv.2 = nw.set_rank rsum := Option.some.inj (hm'.symm.trans hlookw)
        rw [hveq, Node.set_rank_parent, hwp, hlookw]
        rfl
      · obtain ⟨m, hm⟩ := keys_lookup_back hkeys hm'
        have hveq : kv.2 = m :=
          Option.some.inj (hm'.symm.trans (hlookother kv.1 m hm hkl hkw))
        rw [hveq]
        rw [alookup_isSome_iff, hkeys, ← alookup_isSome_iff]
        exact hpar (kv.1, m) (alookup_mem hm)
  · exact IEK_setNodeRank (IEK_setNodeParent hiek l w) w rsum
  · intro kv hkv
    have hk : kv.1 ∈ s2.nodes.map Prod.fst := by
      rw [← hkeys]
      exact List.mem_map.mpr ⟨kv, hkv, rfl⟩
    obtain ⟨v, hv⟩ := keys_mem_entry hk
    exact hlt (kv.1, v) hv
  · intro kv hkv
    have hk : kv.1 ∈ s2.nodes.map Prod.fst := by
      rw [← hkeys]
      exact List.mem_map.mpr ⟨kv, hkv, rfl⟩
    obtain ⟨v, hv⟩ := keys_mem_entry hk
    obtain ⟨ρ, hρ⟩ := Option.isSome_iff_exists.mp (hrooted (kv.1, v) hv)
    have h1 := hroots kv.1 ρ ⟨s2.nodes.length, hρ⟩
    have h2 := RootIs_fuel_length h1
    rw [hlen] at h2
    show (root_of_aux (setNodeRank (setNodeParent s2.nodes l w) w rsum).length
        (setNodeRank (setNodeParent s2.nodes l w) w rsum) kv.1).isSome = true
    rw [hlen, h2]
    rfl
  · intro kv hkv
    have hm' : alookup (setNodeRank (setNodeParent s2.nodes l w) w rsum) kv.1 =
        some kv.2 := mem_alookup hnd' hkv
    by_cases hkl : kv.1 = l
    · rw [hkl] at hm'
      have hveq : kv.2 = nl.set_parent w := Option.some.inj (hm'.symm.trans hlookl)
      rw [hveq, Node.set_parent_rank]
      exact hpos (l, nl) (alookup_mem hl)
    · by_cases hkw : kv.1 = w
      · rw [hkw] at hm'
        have hveq : kv.2 = nw.set_rank rsum := Option.some.inj (hm'.symm.trans hlookw)
        rw [hveq, Node.set_rank_rank, hrsum]
        have h3 : 0 < nl.rank := hpos (l, nl) (alookup_mem hl)
        omega
      · obtain ⟨m, hm⟩ := keys_lookup_back hkeys hm'
        have hveq : kv.2 = m :=
          Option.some.inj (hm'.symm.trans (hlookother kv.1 m hm hkl hkw))
        rw [hveq]
        exact hpos (kv.1, m) (alookup_mem hm)

/-! ### Evaluation lemmas and the union case analysis -/

theorem union_eval {s : DisjointSets α} {x y : α} {xi yi : Id} {r1 r2 : Id}
    {s1 s2 : DisjointSets α}
    (hx : alookup s.item_to_id x = some xi) (hy : alookup s.item_to_id y = some yi)
    (hf1 : find_repr_id s xi = some (r1, s1)) (hf2 : find_repr_id s1 yi = some (r2, s2)) :
    union s x y =
      if r1 = r2 then some (.ok (), s2)
      else
        match alookup s2.nodes r1, alookup s2.nodes r2 with
        | some x_node, some y_node =>
          if x_node.rank < y_node.rank then
            some (.ok (), { s2 with
              nodes := setNodeRank (setNodeParent s2.nodes r1 r2) r2
                (x_node.rank + y_node.rank) })
          else
            some (.ok (), { s2 with
              nodes := setNodeRank (setNodeParent s2.nodes r2 r1) r1
                (x_node.rank + y_node.rank) })
        | _, _ => none := by
  simp only [union, hx, hy, hf1, hf2]

theorem same_set_eval {s : DisjointSets α} {x y : α} {xi yi : Id} {r1 r2 : Id}
    {s1 s2 : DisjointSets α}
    (hx : alookup s.item_to_id x = some xi) (hy : alookup s.item_to_id y = some yi)
    (hf1 : find_repr_id s xi = some (r1, s1)) (hf2 : find_repr_id s1 yi = some (r2, s2)) :
    same_set s x y = some (.ok (r1 == r2), s2) := by
  simp only [same_set, hx, hy, hf1, hf2]

theorem set_size_eval {s : DisjointSets α} {x : α} {xi : Id} {r1 : Id}
    {s1 : DisjointSets α} {n : Node}
    (hx : alookup s.item_to_id x = some xi)
    (hf1 : find_repr_id s xi = some (r1, s1)) (hl : alookup s1.nodes r1 = some n) :
    set_size s x = some (.ok n.rank, s1) := by
  simp only [set_size, hx, hf1, hl]

theorem union_cases {s : DisjointSets α} (hwf : WF s) {x y : α} {xi yi : Id}
    (hx : alookup s.item_to_id x = some xi) (hy : alookup s.item_to_id y = some yi) :
    ∃ rx ry s', union s x y = some (.ok (), s') ∧
      RootIs s.nodes xi rx ∧ RootIs s.nodes yi ry ∧
      s'.item_to_id = s.item_to_id ∧ s'.next_id = s.next_id ∧
      s'.nodes.length = s.nodes.length ∧ WF s' ∧
      sum_rep_ranks s'.nodes = sum_rep_ranks s.nodes ∧
      ((rx = ry ∧
        (∀ j ρ, RootIs s.nodes j ρ → RootIs s'.nodes j ρ) ∧
        (∀ k m, alookup s.nodes k = some m →
          ∃ m', alookup s'.nodes k = some m' ∧ m'.item = m.item ∧ m'.rank = m.rank)) ∨
       (rx ≠ ry ∧ ∃ nx ny,
        alookup s.nodes rx = some nx ∧ alookup s.nodes ry = some ny ∧
        nx.parent = rx ∧ ny.parent = ry ∧
        ((nx.rank < ny.rank ∧ LinkOutcome s s' rx ry nx ny (nx.rank + ny.rank)) ∨
         (¬ nx.rank < ny.rank ∧
           LinkOutcome s s' ry rx ny nx (nx.rank + ny.rank))))) := by
  have hwf0 := hwf
  obtain ⟨hnd, hind, hids, hpar, hiek, hlt, hrooted, hpos⟩ := hwf
  obtain ⟨nxi, hlxi⟩ := Option.isSome_iff_exists.mp (hids (x, xi) (alookup_mem hx))
  obtain ⟨r1, nodes1, hfind1, hlen1, facts1, hwf1⟩ := find_repr_id_spec hwf0 hlxi
  have hyiS : (alookup nodes1 yi).isSome := by
    rw [alookup_isSome_iff, facts1.keys_eq, ← alookup_isSome_iff]
    exact hids (y, yi) (alookup_mem hy)
  obtain ⟨nyi1, hlyi1⟩ := Option.isSome_iff_exists.mp hyiS
  obtain ⟨r2, nodes2, hfind2, hlen2, facts2, hwf2⟩ :=
    find_repr_id_spec hwf1
      (show alookup ({ s with nodes := nodes1 } : DisjointSets α).nodes yi = some nyi1
        from hlyi1)
  obtain ⟨nyi, hlyi⟩ := Option.isSome_iff_exists.mp (hids (y, yi) (alookup_mem hy))
  obtain ⟨ρ0, hρ0⟩ := Option.isSome_iff_exists.mp (hrooted (yi, nyi) (alookup_mem hlyi))
  have hρ0' : RootIs s.nodes yi ρ0 := ⟨s.nodes.length, hρ0⟩
  have hr2 : r2 = ρ0 := RootIs_unique facts2.root (facts1.roots_mapped yi ρ0 hρ0')
  have hry : RootIs s.nodes yi r2 := by rw [hr2]; exact hρ0'
  have hrx : RootIs s.nodes xi r1 := facts1.root
  have heval := union_eval hx hy hfind1 hfind2
  by_cases hrr : r1 = r2
  · rw [if_pos hrr] at heval
    refine ⟨r1, r2, _, heval, hrx, hry, rfl, rfl, ?_, hwf2, ?_, Or.inl ⟨hrr, ?_, ?_⟩⟩
    · show nodes2.length = s.nodes.length
      rw [hlen2]
      exact hlen1
    · show sum_rep_ranks nodes2 = sum_rep_ranks s.nodes
      rw [facts2.sum_eq]
      exact facts1.sum_eq
    · intro j ρ hρ
      exact facts2.roots_mapped j ρ (facts1.roots_mapped j ρ hρ)
    · intro k m hm
      obtain ⟨m1, hm1, hit1, hrk1, _⟩ := facts1.frame k m hm
      obtain ⟨m2, hm2, hit2, hrk2, _⟩ := facts2.frame k m1 hm1
      exact ⟨m2, hm2, hit2.trans hit1, hrk2.trans hrk1⟩
  · rw [if_neg hrr] at heval
    obtain ⟨nx, hnx, hnxp⟩ := RootIs_root hrx
    obtain ⟨ny, hny, hnyp⟩ := RootIs_root hry
    have hrepx : nx.is_representative = true := (is_representative_iff hiek hnx).mpr hnxp
    have hrepy : ny.is_representative = true := (is_representative_iff hiek hny).mpr hnyp
    have hnx1 : alookup nodes1 r1 = some nx := facts1.rep_frame r1 nx hnx hrepx
    have hnx2 : alookup nodes2 r1 = some nx := facts2.rep_frame r1 nx hnx1 hrepx
    have hny1 : alookup nodes1 r2 = some ny := facts1.rep_frame r2 ny hny hrepy
    have hny2 : alookup nodes2 r2 = some ny := facts2.rep_frame r2 ny hny1 hrepy
    simp only [hnx2, hny2] at heval
    by_cases hcmp : nx.rank < ny.rank
    · rw [if_pos hcmp] at heval
      obtain ⟨hwfL, hlookl, hlookw, hlookother, hrootsL, hsumL, hlenL⟩ :=
        link_facts hwf2 hnx2 hny2 hnxp hnyp hrr rfl
      refine ⟨r1, r2, _, heval, hrx, hry, rfl, rfl, ?_, hwfL, ?_,
        Or.inr ⟨hrr, nx, ny, hnx, hny, hnxp, hnyp,
          Or.inl ⟨hcmp, hlookl, hlookw, ?_, ?_⟩⟩⟩
      · exact hlenL.trans (hlen2.trans hlen1)
      · exact hsumL.trans (facts2.sum_eq.trans facts1.sum_eq)
      · intro k m hm hkw
        obtain ⟨m1, hm1, _, hrk1, _⟩ := facts1.frame k m hm
        obtain ⟨m2, hm2, _, hrk2, _⟩ := facts2.frame k m1 hm1
        by_cases hkl : k = r1
        · rw [hkl]
          refine ⟨nx.set_parent r2, hlookl, ?_⟩
          rw [Node.set_parent_rank]
          rw [hkl] at hm
          have : m = nx := Option.some.inj (hm.symm.trans hnx)
          rw [this]
        · exact ⟨m2, hlookother k m2 hm2 hkl hkw, hrk2.trans hrk1⟩
      · intro j ρ hρ
        exact hrootsL j ρ (facts2.roots_mapped j ρ (facts1.roots_mapped j ρ hρ))
    · rw [if_neg hcmp] at heval
      obtain ⟨hwfL, hlookl, hlookw, hlookother, hrootsL, hsumL, hlenL⟩ :=
        link_facts hwf2 hny2 hnx2 hnyp hnxp (fun hc => hrr hc.symm)
          (Nat.add_comm nx.rank ny.rank)
      refine ⟨r1, r2, _, heval, hrx, hry, rfl, rfl, ?_, hwfL, ?_,
        Or.inr ⟨hrr, nx, ny, hnx, hny, hnxp, hnyp,
          Or.inr ⟨hcmp, hlookl, hlookw, ?_, ?_⟩⟩⟩
      · exact hlenL.trans (hlen2.trans hlen1)
      · exact hsumL.trans (facts2.sum_eq.trans facts1.sum_eq)
      · intro k m hm hkw
        obtain ⟨m1, hm1, _, hrk1, _⟩ := facts1.frame k m hm
        obtain ⟨m2, hm2, _, hrk2, _⟩ := facts2.frame k m1 hm1
        by_cases hkl : k = r2
        · rw [hkl]
          refine ⟨ny.set_parent r1, hlookl, ?_⟩
          rw [Node.set_parent_rank]
          rw [hkl] at hm
          have : m = ny := Option.some.inj (hm.symm.trans hny)
          rw [this]
        · exact ⟨m2, hlookother k m2 hm2 hkl hkw, hrk2.trans hrk1⟩
      · intro j ρ hρ
        exact hrootsL j ρ (facts2.roots_mapped j ρ (facts1.roots_mapped j ρ hρ))

theorem same_set_spec {s : DisjointSets α} (hwf : WF s) {x y : α} {xi yi : Id}
    (hx : alookup s.item_to_id x = some xi) (hy : alookup s.item_to_id y = some yi) :
    ∃ rx ry s', same_set s x y = some (.ok (rx == ry), s') ∧
      RootIs s.nodes xi rx ∧ RootIs s.nodes yi ry ∧
      s'.item_to_id = s.item_to_id ∧ s'.next_id = s.next_id ∧
      s'.nodes.length = s.nodes.length ∧ WF s' ∧
      sum_rep_ranks s'.nodes = sum_rep_ranks s.nodes ∧
      (∀ j ρ, RootIs s.nodes j ρ → RootIs s'.nodes j ρ) ∧
      (∀ k m, alookup s.nodes k = some m →
        ∃ m', alookup s'.nodes k = some m' ∧ m'.item = m.item ∧ m'.rank = m.rank) := by
  have hwf0 := hwf
  obtain ⟨hnd, hind, hids, hpar, hiek, hlt, hrooted, hpos⟩ := hwf
  obtain ⟨nxi, hlxi⟩ := Option.isSome_iff_exists.mp (hids (x, xi) (alookup_mem hx))
  obtain ⟨r1, nodes1, hfind1, hlen1, facts1, hwf1⟩ := find_repr_id_spec hwf0 hlxi
  have hyiS : (alookup nodes1 yi).isSome := by
    rw [alookup_isSome_iff, facts1.keys_eq, ← alookup_isSome_iff]
    exact hids (y, yi) (alookup_mem hy)
  obtain ⟨nyi1, hlyi1⟩ := Option.isSome_iff_exists.mp hyiS
  obtain ⟨r2, nodes2, hfind2, hlen2, facts2, hwf2⟩ :=
    find_repr_id_spec hwf1
      (show alookup ({ s with nodes := nodes1 } : DisjointSets α).nodes yi = some nyi1
        from hlyi1)
  obtain ⟨nyi, hlyi⟩ := Option.isSome_iff_exists.mp (hids (y, yi) (alookup_mem hy))
  obtain ⟨ρ0, hρ0⟩ := Option.isSome_iff_exists.mp (hrooted (yi, nyi) (alookup_mem hlyi))
  have hρ0' : RootIs s.nodes yi ρ0 := ⟨s.nodes.length, hρ0⟩
  have hr2 : r2 = ρ0 := RootIs_unique facts2.root (facts1.roots_mapped yi ρ0 hρ0')
  have hry : RootIs s.nodes yi r2 := by rw [hr2]; exact hρ0'
  refine ⟨r1, r2, _, same_set_eval hx hy hfind1 hfind2, facts1.root, hry,
    rfl, rfl, ?_, hwf2, ?_, ?_, ?_⟩
  · show nodes2.length = s.nodes.length
    rw [hlen2]
    exact hlen1
  · show sum_rep_ranks nodes2 = sum_rep_ranks s.nodes
    rw [facts2.sum_eq]
    exact facts1.sum_eq
  · intro j ρ hρ
    exact facts2.roots_mapped j ρ (facts1.roots_mapped j ρ hρ)
  · intro k m hm
    obtain ⟨m1, hm1, hit1, hrk1, _⟩ := facts1.frame k m hm
    obtain ⟨m2, hm2, hit2, hrk2, _⟩ := facts2.frame k m1 hm1
    exact ⟨m2, hm2, hit2.trans hit1, hrk2.trans hrk1⟩

theorem set_size_spec {s : DisjointSets α} (hwf : WF s) {x : α} {xi : Id}
    (hx : alookup s.item_to_id x = some xi) :
    ∃ r n s', set_size s x = some (.ok n.rank, s') ∧
      RootIs s.nodes xi r ∧ alookup s.nodes r = some n ∧ n.parent = r ∧
      s'.item_to_id = s.item_to_id ∧ s'.next_id = s.next_id ∧
      s'.nodes.length = s.nodes.length ∧ WF s' ∧
      sum_rep_ranks s'.nodes = sum_rep_ranks s.nodes ∧
      (∀ j ρ, RootIs s.nodes j ρ → RootIs s'.nodes j ρ) ∧
      (∀ k m, alookup s.nodes k = some m →
        ∃ m', alookup s'.nodes k = some m' ∧ m'.item = m.item ∧ m'.rank = m.rank) := by
  have hwf0 := hwf
  obtain ⟨hnd, hind, hids, hpar, hiek, hlt, hrooted, hpos⟩ := hwf
  obtain ⟨nxi, hlxi⟩ := Option.isSome_iff_exists.mp (hids (x, xi) (alookup_mem hx))
  obtain ⟨r1, nodes1, hfind1, hlen1, facts1, hwf1⟩ := find_repr_id_spec hwf0 hlxi
  obtain ⟨n, hn, hnp⟩ := RootIs_root facts1.root
  have hrep : n.is_representative = true := (is_representative_iff hiek hn).mpr hnp
  have hn1 : alookup nodes1 r1 = some n := facts1.rep_frame r1 n hn hrep
  refine ⟨r1, n, _, set_size_eval hx hfind1 hn1, facts1.root, hn, hnp,
    rfl, rfl, hlen1, hwf1, facts1.sum_eq, facts1.roots_mapped, ?_⟩
  intro k m hm
  obtain ⟨m1, hm1, hit1, hrk1, _⟩ := facts1.frame k m hm
  exact ⟨m1, hm1, hit1, hrk1⟩

theorem same_set_err_left {s : DisjointSets α} {x y : α}
    (hx : alookup s.item_to_id x = none) :
    same_set s x y = some (.error .ItemNotFound, s) := by
  simp only [same_set, hx]

theorem same_set_err_right {s : DisjointSets α} {x y : α}
    (hy : alookup s.item_to_id y = none) :
    same_set s x y = some (.error .ItemNotFound, s) := by
  cases hx : alookup s.item_to_id x with
  | none => simp only [same_set, hx]
  | some xi => simp only [same_set, hx, hy]

theorem union_err_left {s : DisjointSets α} {x y : α}
    (hx : alookup s.item_to_id x = none) :
    union s x y = some (.error .ItemNotFound, s) := by
  simp only [union, hx]

theorem union_err_right {s : DisjointSets α} {x y : α}
    (hy : alookup s.item_to_id y = none) :
    union s x y = some (.error .ItemNotFound, s) := by
  cases hx : alookup s.item_to_id x with
  | none => simp only [union, hx]
  | some xi => simp only [union, hx, hy]

theorem set_size_err {s : DisjointSets α} {x : α}
    (hx : alookup s.item_to_id x = none) :
    set_size s x = some (.error .ItemNotFound, s) := by
  simp only [set_size, hx]

/-! ### One public operation, from any well-formed state -/

theorem alookup_cons_of_head_none {κ ν : Type} [DecidableEq κ] {m : List (κ × ν)}
    {knew k : κ} {vnew v : ν} (hk : alookup m k = some v)
    (hnew : alookup m knew = none) : alookup ((knew, vnew) :: m) k = some v := by
  rw [alookup_cons]
  split_ifs with h
  · have h' : knew = k := h
    rw [h'] at hnew
    rw [hnew] at hk
    cases hk
  · exact hk

theorem alookup_cons_of_ne {κ ν : Type} [DecidableEq κ] {m : List (κ × ν)}
    {knew k : κ} (vnew : ν) (h : knew ≠ k) :
    alookup ((knew, vnew) :: m) k = alookup m k := by
  rw [alookup_cons, if_neg h]

theorem contribution_new (id : Id) : contribution (id, Node.new id) = 1 := by
  simp [contribution, Node.is_representative, Node.new]

theorem stepState_spec {s : DisjointSets α} (hwf : WF s) (op : Op α) :
    ∃ s', stepState s op = some s' ∧ WF s' ∧
      (∀ a ia, alookup s.item_to_id a = some ia → alookup s'.item_to_id a = some ia) ∧
      (∀ k m, alookup s.nodes k = some m →
        ∃ m', alookup s'.nodes k = some m' ∧ m.rank ≤ m'.rank) ∧
      (∀ j1 j2 ρ, RootIs s.nodes j1 ρ → RootIs s.nodes j2 ρ →
        ∃ ρ', RootIs s'.nodes j1 ρ' ∧ RootIs s'.nodes j2 ρ') ∧
      (sum_rep_ranks s.nodes = s.item_to_id.length →
        sum_rep_ranks s'.nodes = s'.item_to_id.length) ∧
      (s.nodes.length = s.item_to_id.length →
        s'.nodes.length = s'.item_to_id.length) := by
  cases op with
  | makeSetOp a =>
    by_cases hc : contains s a = true
    · refine ⟨s, ?_, hwf, fun a ia h => h, fun k m h => ⟨m, h, le_refl _⟩,
        fun j1 j2 ρ h1 h2 => ⟨ρ, h1, h2⟩, fun h => h, fun h => h⟩
      show some (make_set s a).2 = some s
      rw [make_set_of_contains hc]
    · have hcf : contains s a = false := by
        cases hcb : contains s a
        · rfl
        · exact absurd hcb hc
      have hnone : alookup s.item_to_id a = none := by
        cases ho : alookup s.item_to_id a with
        | none => rfl
        | some v => rw [contains, ho] at hcf; cases hcf
      have hfresh := next_id_fresh hwf
      refine ⟨_, ?_, WF_make_set hwf hcf, ?_, ?_, ?_, ?_, ?_⟩
      · show some (make_set s a).2 = some _
        rw [make_set_of_not_contains hcf]
      · intro a' ia h
        exact alookup_cons_of_head_none h hnone
      · intro k m h
        have hkk : s.next_id ≠ k := by
          intro hcc
          exact hfresh (hcc ▸ alookup_isSome_iff.mp (by rw [h]; rfl))
        refine ⟨m, ?_, le_refl _⟩
        show alookup ((s.next_id, Node.new s.next_id) :: s.nodes) k = some m
        rw [alookup_cons_of_ne _ hkk]
        exact h
      · intro j1 j2 ρ h1 h2
        obtain ⟨f1, hf1⟩ := h1
        obtain ⟨f2, hf2⟩ := h2
        exact ⟨ρ, ⟨f1, root_of_aux_cons_fresh hfresh hf1⟩,
          ⟨f2, root_of_aux_cons_fresh hfresh hf2⟩⟩
      · intro h
        show sum_rep_ranks ((s.next_id, Node.new s.next_id) :: s.nodes) =
          ((a, s.next_id) :: s.item_to_id).length
        rw [sum_rep_ranks_cons, contribution_new, List.length_cons]
        omega
      · intro h
        show ((s.next_id, Node.new s.next_id) :: s.nodes).length =
          ((a, s.next_id) :: s.item_to_id).length
        rw [List.length_cons, List.length_cons]
        omega
  | unionOp a b =>
    cases hx : alookup s.item_to_id a with
    | none =>
      refine ⟨s, ?_, hwf, fun a ia h => h, fun k m h => ⟨m, h, le_refl _⟩,
        fun j1 j2 ρ h1 h2 => ⟨ρ, h1, h2⟩, fun h => h, fun h => h⟩
      show (union s a b).map (fun r => r.2) = some s
      rw [union_err_left hx]
      rfl
    | some xi =>
      cases hy : alookup s.item_to_id b with
      | none =>
        refine ⟨s, ?_, hwf, fun a ia h => h, fun k m h => ⟨m, h, le_refl _⟩,
          fun j1 j2 ρ h1 h2 => ⟨ρ, h1, h2⟩, fun h => h, fun h => h⟩
        show (union s a b).map (fun r => r.2) = some s
        rw [union_err_right hy]
        rfl
      | some yi =>
        obtain ⟨rx, ry, s', hu, hrx, hry, hitm, hnext, hlen, hwf', hsum, hbr⟩ :=
          union_cases hwf hx hy
        refine ⟨s', ?_, hwf', ?_, ?_, ?_, ?_, ?_⟩
        · show (union s a b).map (fun r => r.2) = some s'
          rw [hu]
          rfl
        · intro a' ia h
          rw [hitm]
          exact h
        · intro k m h
          rcases hbr with ⟨-, -, hframe⟩ | ⟨hne, nx, ny, hnx, hny, hnxp, hnyp, hlk⟩
          · obtain ⟨m', hm', _, hrk⟩ := hframe k m h
            exact ⟨m', hm', le_of_eq hrk.symm⟩
          · rcases hlk with ⟨hcmp, hl1, hl2, hfr, hroots⟩ | ⟨hcmp, hl1, hl2, hfr, hroots⟩
            · by_cases hkw : k = ry
              · rw [hkw] at h ⊢
                have hmny : m = ny := Option.some.inj (h.symm.trans hny)
                refine ⟨ny.set_rank (nx.rank + ny.rank), hl2, ?_⟩
                rw [hmny, Node.set_rank_rank]
                exact Nat.le_add_left _ _
              · obtain ⟨m', hm', hrk⟩ := hfr k m h hkw
                exact ⟨m', hm', le_of_eq hrk.symm⟩
            · by_cases hkw : k = rx
              · rw [hkw] at h ⊢
                have hmnx : m = nx := Option.some.inj (h.symm.trans hnx)
                refine ⟨nx.set_rank (nx.rank + ny.rank), hl2, ?_⟩
                rw [hmnx, Node.set_rank_rank]
                exact Nat.le_add_right _ _
              · obtain ⟨m', hm', hrk⟩ := hfr k m h hkw
                exact ⟨m', hm', le_of_eq hrk.symm⟩
        · intro j1 j2 ρ h1 h2
          rcases hbr with ⟨-, hroots, -⟩ | ⟨hne, nx, ny, hnx, hny, hnxp, hnyp, hlk⟩
          · exact ⟨ρ, hroots j1 ρ h1, hroots j2 ρ h2⟩
          · rcases hlk with ⟨hcmp, -, -, -, hroots⟩ | ⟨hcmp, -, -, -, hroots⟩
            · exact ⟨_, hroots j1 ρ h1, hroots j2 ρ h2⟩
            · exact ⟨_, hroots j1 ρ h1, hroots j2 ρ h2⟩
        · intro h
          rw [hsum, hitm]
          exact h
        · intro h
          rw [hlen, hitm]
          exact h
  | sameSetOp a b =>
    cases hx : alookup s.item_to_id a with
    | none =>
      refine ⟨s, ?_, hwf, fun a ia h => h, fun k m h => ⟨m, h, le_refl _⟩,
        fun j1 j2 ρ h1 h2 => ⟨ρ, h1, h2⟩, fun h => h, fun h => h⟩
      show (same_set s a b).map (fun r => r.2) = some s
      rw [same_set_err_left hx]
      rfl
    | some xi =>
      cases hy : alookup s.item_to_id b with
      | none =>
        refine ⟨s, ?_, hwf, fun a ia h => h, fun k m h => ⟨m, h, le_refl _⟩,
          fun j1 j2 ρ h1 h2 => ⟨ρ, h1, h2⟩, fun h => h, fun h => h⟩
        show (same_set s a b).map (fun r => r.2) = some s
        rw [same_set_err_right hy]
        rfl
      | some yi =>
        obtain ⟨rx, ry, s', hq, hrx, hry, hitm, hnext, hlen, hwf', hsum, hroots, hframe⟩ :=
          same_set_spec hwf hx hy
        refine ⟨s', ?_, hwf', ?_, ?_, ?_, ?_, ?_⟩
        · show (same_set s a b).map (fun r => r.2) = some s'
          rw [hq]
          rfl
        · intro a' ia h
          rw [hitm]
          exact h
        · intro k m h
          obtain ⟨m', hm', _, hrk⟩ := hframe k m h
          exact ⟨m', hm', le_of_eq hrk.symm⟩
        · intro j1 j2 ρ h1 h2
          exact ⟨ρ, hroots j1 ρ h1, hroots j2 ρ h2⟩
        · intro h
          rw [hsum, hitm]
          exact h
        · intro h
          rw [hlen, hitm]
          exact h
  | setSizeOp a =>
    cases hx : alookup s.item_to_id a with
    | none =>
      refine ⟨s, ?_, hwf, fun a ia h => h, fun k m h => ⟨m, h, le_refl _⟩,
        fun j1 j2 ρ h1 h2 => ⟨ρ, h1, h2⟩, fun h => h, fun h => h⟩
      show (set_size s a).map (fun r => r.2) = some s
      rw [set_size_err hx]
      rfl
    | some xi =>
      obtain ⟨r, n, s', hq, hr, hn, hnp, hitm, hnext, hlen, hwf', hsum, hroots, hframe⟩ :=
        set_size_spec hwf hx
      refine ⟨s', ?_, hwf', ?_, ?_, ?_, ?_, ?_⟩
      · show (set_size s a).map (fun r => r.2) = some s'
        rw [hq]
        rfl
      · intro a' ia h
        rw [hitm]
        exact h
      · intro k m h
        obtain ⟨m', hm', _, hrk⟩ := hframe k m h
        exact ⟨m', hm', le_of_eq hrk.symm⟩
      · intro j1 j2 ρ h1 h2
        exact ⟨ρ, hroots j1 ρ h1, hroots j2 ρ h2⟩
      · intro h
        rw [hsum, hitm]
        exact h
      · intro h
        rw [hlen, hitm]
        exact h

/-! ### Runs of operations and partition comparison helpers -/

theorem runOps_spec {ops : List (Op α)} :
    ∀ {s t : DisjointSets α}, WF s → runOps s ops = some t →
      WF t ∧
      (∀ a ia, alookup s.item_to_id a = some ia → alookup t.item_to_id a = some ia) ∧
      (∀ k m, alookup s.nodes k = some m →
        ∃ m', alookup t.nodes k = some m' ∧ m.rank ≤ m'.rank) ∧
      (∀ j1 j2 ρ, RootIs s.nodes j1 ρ → RootIs s.nodes j2 ρ →
        ∃ ρ', RootIs t.nodes j1 ρ' ∧ RootIs t.nodes j2 ρ') ∧
      (sum_rep_ranks s.nodes = s.item_to_id.length →
        sum_rep_ranks t.nodes = t.item_to_id.length) ∧
      (s.nodes.length = s.item_to_id.length →
        t.nodes.length = t.item_to_id.length) := by
  induction ops with
  | nil =>
    intro s t hwf h
    obtain rfl : s = t := Option.some.inj h
    exact ⟨hwf, fun a ia h => h, fun k m h => ⟨m, h, le_refl _⟩,
      fun j1 j2 ρ h1 h2 => ⟨ρ, h1, h2⟩, fun h => h, fun h => h⟩
  | cons op ops ih =>
    intro s t hwf h
    obtain ⟨s', hstep, hwf', hitems, hranks, hroots, hsum, hlen⟩ := stepState_spec hwf op
    rw [runOps] at h
    rw [hstep] at h
    obtain ⟨hwft, hitems2, hranks2, hroots2, hsum2, hlen2⟩ := ih hwf' h
    refine ⟨hwft, fun a ia ha => hitems2 a ia (hitems a ia ha), ?_, ?_,
      fun hh => hsum2 (hsum hh), fun hh => hlen2 (hlen hh)⟩
    · intro k m hm
      obtain ⟨m1, hm1, hle1⟩ := hranks k m hm
      obtain ⟨m2, hm2, hle2⟩ := hranks2 k m1 hm1
      exact ⟨m2, hm2, le_trans hle1 hle2⟩
    · intro j1 j2 ρ h1 h2
      obtain ⟨ρ', h1', h2'⟩ := hroots j1 j2 ρ h1 h2
      exact hroots2 j1 j2 ρ' h1' h2'

theorem root_exists {s : DisjointSets α} (hwf : WF s) {k : Id}
    (hk : (alookup s.nodes k).isSome) : ∃ ρ, RootIs s.nodes k ρ := by
  obtain ⟨n, hn⟩ := Option.isSome_iff_exists.mp hk
  obtain ⟨ρ, hρ⟩ :=
    Option.isSome_iff_exists.mp (hwf.2.2.2.2.2.2.1 (k, n) (alookup_mem hn))
  exact ⟨ρ, s.nodes.length, hρ⟩

theorem root_exists_of_item {s : DisjointSets α} (hwf : WF s) {a : α} {ia : Id}
    (hla : alookup s.item_to_id a = some ia) : ∃ ρ, RootIs s.nodes ia ρ :=
  root_exists hwf (hwf.2.2.1 (a, ia) (alookup_mem hla))

theorem same_set_true_of_roots {s : DisjointSets α} (hwf : WF s) {x y : α}
    {xi yi : Id} (hx : alookup s.item_to_id x = some xi)
    (hy : alookup s.item_to_id y = some yi) {ρ : Id}
    (h1 : RootIs s.nodes xi ρ) (h2 : RootIs s.nodes yi ρ) :
    ∃ s', same_set s x y = some (.ok true, s') := by
  obtain ⟨rx, ry, s', heq, hrx, hry, _⟩ := same_set_spec hwf hx hy
  have e1 : rx = ρ := RootIs_unique hrx h1
  have e2 : ry = ρ := RootIs_unique hry h2
  refine ⟨s', ?_⟩
  rw [heq, e1, e2, beq_self_eq_true]

theorem collapse_eq_iff {l w : Id} (hne : l ≠ w) (a b : Id) :
    ((if a = l then w else a) = (if b = l then w else b)) ↔
      (a = b ∨ ((a = l ∨ a = w) ∧ (b = l ∨ b = w))) := by
  split_ifs with h1 h2 h2
  · exact ⟨fun _ => Or.inl (h1.trans h2.symm), fun _ => rfl⟩
  · constructor
    · intro h
      exact Or.inr ⟨Or.inl h1, Or.inr h.symm⟩
    · rintro (h | ⟨-, hb | hb⟩)
      · exact absurd (h.symm.trans h1) h2
      · exact absurd hb h2
      · exact hb.symm
  · constructor
    · intro h
      exact Or.inr ⟨Or.inr h, Or.inl h2⟩
    · rintro (h | ⟨ha | ha, -⟩)
      · exact absurd (h.trans h2) h1
      · exact absurd ha h1
      · exact ha
  · constructor
    · exact fun h => Or.inl h
    · rintro (h | ⟨ha | ha, hb | hb⟩)
      · exact h
      · exact absurd ha h1
      · exact absurd ha h1
      · exact absurd hb h2
      · exact ha.trans hb.symm

theorem collapse_agree {rx ry l1 w1 l2 w2 : Id} (hne : rx ≠ ry)
    (h1 : (l1 = rx ∧ w1 = ry) ∨ (l1 = ry ∧ w1 = rx))
    (h2 : (l2 = rx ∧ w2 = ry) ∨ (l2 = ry ∧ w2 = rx)) (a b : Id) :
    ((if a = l1 then w1 else a) = (if b = l1 then w1 else b)) ↔
    ((if a = l2 then w2 else a) = (if b = l2 then w2 else b)) := by
  have hne' : ry ≠ rx := fun hc => hne hc.symm
  rcases h1 with ⟨rfl, rfl⟩ | ⟨rfl, rfl⟩ <;> rcases h2 with ⟨rfl, rfl⟩ | ⟨rfl, rfl⟩
  · exact Iff.rfl
  · rw [collapse_eq_iff hne, collapse_eq_iff hne']
    constructor
    · rintro (h | ⟨ha, hb⟩)
      · exact Or.inl h
      · exact Or.inr ⟨ha.symm, hb.symm⟩
    · rintro (h | ⟨ha, hb⟩)
      · exact Or.inl h
      · exact Or.inr ⟨ha.symm, hb.symm⟩
  · rw [collapse_eq_iff hne', collapse_eq_iff hne]
    constructor
    · rintro (h | ⟨ha, hb⟩)
      · exact Or.inl h
      · exact Or.inr ⟨ha.symm, hb.symm⟩
    · rintro (h | ⟨ha, hb⟩)
      · exact Or.inl h
      · exact Or.inr ⟨ha.symm, hb.symm⟩
  · exact Iff.rfl

theorem InSameSet_via_map {s s' : DisjointSets α} (hwf : WF s)
    (hitm : s'.item_to_id = s.item_to_id) (F : Id → Id)
    (hroots : ∀ j ρ, RootIs s.nodes j ρ → RootIs s'.nodes j (F ρ)) (a b : α) :
    InSameSet s' a b ↔ ∃ ia ib ρa ρb, alookup s.item_to_id a = some ia ∧
      alookup s.item_to_id b = some ib ∧ RootIs s.nodes ia ρa ∧
      RootIs s.nodes ib ρb ∧ F ρa = F ρb := by
  constructor
  · rintro ⟨ia, ib, r, hla, hlb, hra, hrb⟩
    rw [hitm] at hla hlb
    obtain ⟨ρa, hρa⟩ := root_exists_of_item hwf hla
    obtain ⟨ρb, hρb⟩ := root_exists_of_item hwf hlb
    have ea : F ρa = r := RootIs_unique (hroots ia ρa hρa) hra
    have eb : F ρb = r := RootIs_unique (hroots ib ρb hρb) hrb
    exact ⟨ia, ib, ρa, ρb, hla, hlb, hρa, hρb, ea.trans eb.symm⟩
  · rintro ⟨ia, ib, ρa, ρb, hla, hlb, hρa, hρb, hF⟩
    refine ⟨ia, ib, F ρa, ?_, ?_, hroots ia ρa hρa, ?_⟩
    · rw [hitm]; exact hla
    · rw [hitm]; exact hlb
    · rw [hF]; exact hroots ib ρb hρb

theorem InSameSet_iff_exists {s : DisjointSets α} (a b : α) :
    InSameSet s a b ↔ ∃ ia ib ρa ρb, alookup s.item_to_id a = some ia ∧
      alookup s.item_to_id b = some ib ∧ RootIs s.nodes ia ρa ∧
      RootIs s.nodes ib ρb ∧ ρa = ρb := by
  constructor
  · rintro ⟨ia, ib, r, h1, h2, h3, h4⟩
    exact ⟨ia, ib, r, r, h1, h2, h3, h4, rfl⟩
  · rintro ⟨ia, ib, ρa, ρb, h1, h2, h3, h4, rfl⟩
    exact ⟨ia, ib, ρa, h1, h2, h3, h4⟩

theorem WF_new : WF (DisjointSets.new : DisjointSets α) := by
  refine ⟨List.nodup_nil, List.nodup_nil, ?_, ?_, ?_, ?_, ?_, ?_⟩ <;>
    intro kv hkv <;> cases hkv

/-! ### The claims -/

/-- C5: for every item `x` not previously registered, `make_set x` succeeds,
and afterwards `contains x` is true, `x` is its own set representative (the
new node's parent is itself and `same_set x x` returns `true` without
changing the state), and `set_size x` returns 1. -/
theorem C5_make_set_singleton {α : Type} [DecidableEq α] (s : DisjointSets α) (x : α)
    (h : contains s x = false) :
    ∃ s', make_set s x = (.ok (), s') ∧ contains s' x = true ∧
      (∃ id n, alookup s'.item_to_id x = some id ∧ alookup s'.nodes id = some n ∧
        n.parent = id) ∧
      same_set s' x x = some (.ok true, s') ∧
      set_size s' x = some (.ok 1, s') := by
  have hlx : alookup ((x, s.next_id) :: s.item_to_id) x = some s.next_id := by
    rw [alookup_cons, if_pos rfl]
  have hln : alookup ((s.next_id, Node.new s.next_id) :: s.nodes) s.next_id =
      some (Node.new s.next_id) := by
    rw [alookup_cons, if_pos rfl]
  have hrepn : (Node.new s.next_id).is_representative = true := by
    show ((Node.new s.next_id).item == (Node.new s.next_id).parent) = true
    exact beq_self_eq_true _
  have hfaux : find_repr_aux (((s.next_id, Node.new s.next_id) :: s.nodes).length)
      ((s.next_id, Node.new s.next_id) :: s.nodes) s.next_id =
      some (s.next_id, (s.next_id, Node.new s.next_id) :: s.nodes) :=
    find_repr_aux_rep hln hrepn
  have hfind : find_repr_id
      ({ nodes := (s.next_id, Node.new s.next_id) :: s.nodes,
         item_to_id := (x, s.next_id) :: s.item_to_id,
         next_id := s.next_id + 1 } : DisjointSets α) s.next_id =
      some (s.next_id,
        { nodes := (s.next_id, Node.new s.next_id) :: s.nodes,
          item_to_id := (x, s.next_id) :: s.item_to_id,
          next_id := s.next_id + 1 }) := find_repr_id_eq_some hfaux
  have hss := same_set_eval hlx hlx hfind hfind
  rw [beq_self_eq_true] at hss
  have hsz := set_size_eval hlx hfind hln
  refine ⟨_, make_set_of_not_contains h, ?_,
    ⟨s.next_id, Node.new s.next_id, hlx, hln, rfl⟩, hss, hsz⟩
  show (alookup ((x, s.next_id) :: s.item_to_id) x).isSome = true
  rw [hlx]
  rfl

/-- C5 witness: registering `0` in the empty structure. -/
theorem C5_make_set_singleton_witness :
    contains (DisjointSets.new : DisjointSets Nat) 0 = false ∧
    (∃ s', make_set (DisjointSets.new : DisjointSets Nat) 0 = (.ok (), s') ∧
      contains s' 0 = true ∧
      (∃ id n, alookup s'.item_to_id 0 = some id ∧ alookup s'.nodes id = some n ∧
        n.parent = id) ∧
      same_set s' 0 0 = some (.ok true, s') ∧
      set_size s' 0 = some (.ok 1, s')) :=
  ⟨by decide, C5_make_set_singleton DisjointSets.new 0 (by decide)⟩

/-- C4: failing operations return their error as an explicit result value and
leave the state unchanged: `make_set` fails with `ItemExists` on a registered
item, and `same_set`, `union` and `set_size` fail with `ItemNotFound` when an
argument is unregistered, all without any mutation. -/
theorem C4_errors_no_mutation {α : Type} [DecidableEq α] (s : DisjointSets α) (x y : α) :
    (contains s x = true → make_set s x = (.error .ItemExists, s)) ∧
    (alookup s.item_to_id x = none →
      same_set s x y = some (.error .ItemNotFound, s) ∧
      union s x y = some (.error .ItemNotFound, s) ∧
      set_size s x = some (.error .ItemNotFound, s)) ∧
    (alookup s.item_to_id y = none →
      same_set s x y = some (.error .ItemNotFound, s) ∧
      union s x y = some (.error .ItemNotFound, s)) :=
  ⟨make_set_of_contains,
   fun h => ⟨same_set_err_left h, union_err_left h, set_size_err h⟩,
   fun h => ⟨same_set_err_right h, union_err_right h⟩⟩

/-- C4 witness: a structure holding only item `0`; `make_set 0` fails with
`ItemExists`, and the three lookup operations fail with `ItemNotFound` on the
unregistered item `1`, in each case leaving the state unchanged. -/
theorem C4_errors_no_mutation_witness :
    (make_set (⟨[(0, ⟨0, 0, 1⟩)], [(0, 0)], 1⟩ : DisjointSets Nat) 0 =
      (.error .ItemExists, ⟨[(0, ⟨0, 0, 1⟩)], [(0, 0)], 1⟩)) ∧
    (same_set (⟨[(0, ⟨0, 0, 1⟩)], [(0, 0)], 1⟩ : DisjointSets Nat) 1 0 =
      some (.error .ItemNotFound, ⟨[(0, ⟨0, 0, 1⟩)], [(0, 0)], 1⟩)) ∧
    (union (⟨[(0, ⟨0, 0, 1⟩)], [(0, 0)], 1⟩ : DisjointSets Nat) 1 0 =
      some (.error .ItemNotFound, ⟨[(0, ⟨0, 0, 1⟩)], [(0, 0)], 1⟩)) ∧
    (set_size (⟨[(0, ⟨0, 0, 1⟩)], [(0, 0)], 1⟩ : DisjointSets Nat) 1 =
      some (.error .ItemNotFound, ⟨[(0, ⟨0, 0, 1⟩)], [(0, 0)], 1⟩)) ∧
    (same_set (⟨[(0, ⟨0, 0, 1⟩)], [(0, 0)], 1⟩ : DisjointSets Nat) 0 1 =
      some (.error .ItemNotFound, ⟨[(0, ⟨0, 0, 1⟩)], [(0, 0)], 1⟩)) ∧
    (union (⟨[(0, ⟨0, 0, 1⟩)], [(0, 0)], 1⟩ : DisjointSets Nat) 0 1 =
      some (.error .ItemNotFound, ⟨[(0, ⟨0, 0, 1⟩)], [(0, 0)], 1⟩)) :=
  ⟨(C4_errors_no_mutation (⟨[(0, ⟨0, 0, 1⟩)], [(0, 0)], 1⟩ : DisjointSets Nat) 0 0).1 (by decide),
   ((C4_errors_no_mutation (⟨[(0, ⟨0, 0, 1⟩)], [(0, 0)], 1⟩ : DisjointSets Nat) 1 0).2.1 (by decide)).1,
   ((C4_errors_no_mutation (⟨[(0, ⟨0, 0, 1⟩)], [(0, 0)], 1⟩ : DisjointSets Nat) 1 0).2.1 (by decide)).2.1,
   ((C4_errors_no_mutation (⟨[(0, ⟨0, 0, 1⟩)], [(0, 0)], 1⟩ : DisjointSets Nat) 1 0).2.1 (by decide)).2.2,
   ((C4_errors_no_mutation (⟨[(0, ⟨0, 0, 1⟩)], [(0, 0)], 1⟩ : DisjointSets Nat) 0 1).2.2 (by decide)).1,
   ((C4_errors_no_mutation (⟨[(0, ⟨0, 0, 1⟩)], [(0, 0)], 1⟩ : DisjointSets Nat) 0 1).2.2 (by decide)).2⟩

/-- C1: on registered items with distinct representatives `rx` and `ry`,
`union x y` re-parents the representative of strictly smaller rank under the
other and sets the surviving root's rank to the sum of both ranks; when the
ranks are equal (the `¬ <` branch), `y`'s representative becomes the child
and `x`'s representative survives. -/
theorem C1_union_by_rank {α : Type} [DecidableEq α] (s : DisjointSets α) (x y : α)
    (xi yi rx ry : Id) (nx ny : Node) (hwf : WF s)
    (hx : alookup s.item_to_id x = some xi) (hy : alookup s.item_to_id y = some yi)
    (hrx : RootIs s.nodes xi rx) (hry : RootIs s.nodes yi ry) (hne : rx ≠ ry)
    (hnx : alookup s.nodes rx = some nx) (hny : alookup s.nodes ry = some ny) :
    ∃ s', union s x y = some (.ok (), s') ∧
      (nx.rank < ny.rank →
        alookup s'.nodes rx = some (nx.set_parent ry) ∧
        alookup s'.nodes ry = some (ny.set_rank (nx.rank + ny.rank))) ∧
      (¬ nx.rank < ny.rank →
        alookup s'.nodes ry = some (ny.set_parent rx) ∧
        alookup s'.nodes rx = some (nx.set_rank (nx.rank + ny.rank))) := by
  obtain ⟨rx', ry', s', hu, hrx', hry', -, -, -, -, -, hbr⟩ := union_cases hwf hx hy
  have e1 : rx' = rx := RootIs_unique hrx' hrx
  have e2 : ry' = ry := RootIs_unique hry' hry
  rw [e1, e2] at hbr
  rcases hbr with ⟨heq, -, -⟩ | ⟨-, nx0, ny0, hnx0, hny0, -, -, hlk⟩
  · exact absurd heq hne
  · have ex : nx0 = nx := Option.some.inj (hnx0.symm.trans hnx)
    have ey : ny0 = ny := Option.some.inj (hny0.symm.trans hny)
    rw [ex, ey] at hlk
    rcases hlk with ⟨hcmp, hl1, hl2, -, -⟩ | ⟨hcmp, hl1, hl2, -, -⟩
    · exact ⟨s', hu, fun _ => ⟨hl1, hl2⟩, fun hc => absurd hcmp hc⟩
    · exact ⟨s', hu, fun hc => absurd hc hcmp, fun _ => ⟨hl1, hl2⟩⟩

/-- C1 witness: two fresh singletons `0` and `1` of equal rank; the tie-break
keeps `0` (the first operand's representative) as the surviving root. -/
theorem C1_union_by_rank_witness :
    ∃ s', union (⟨[(1, ⟨1, 1, 1⟩), (0, ⟨0, 0, 1⟩)], [(1, 1), (0, 0)], 2⟩ :
        DisjointSets Nat) 0 1 = some (.ok (), s') ∧
      ((⟨0, 0, 1⟩ : Node).rank < (⟨1, 1, 1⟩ : Node).rank →
        alookup s'.nodes 0 = some ((⟨0, 0, 1⟩ : Node).set_parent 1) ∧
        alookup s'.nodes 1 = some ((⟨1, 1, 1⟩ : Node).set_rank
          ((⟨0, 0, 1⟩ : Node).rank + (⟨1, 1, 1⟩ : Node).rank))) ∧
      (¬ (⟨0, 0, 1⟩ : Node).rank < (⟨1, 1, 1⟩ : Node).rank →
        alookup s'.nodes 1 = some ((⟨1, 1, 1⟩ : Node).set_parent 0) ∧
        alookup s'.nodes 0 = some ((⟨0, 0, 1⟩ : Node).set_rank
          ((⟨0, 0, 1⟩ : Node).rank + (⟨1, 1, 1⟩ : Node).rank))) :=
  C1_union_by_rank _ 0 1 0 1 0 1 ⟨0, 0, 1⟩ ⟨1, 1, 1⟩ (by decide) (by decide)
    (by decide) ⟨1, by decide⟩ ⟨1, by decide⟩ (by decide) (by decide) (by decide)

theorem walk_head {nodes : List (Id × Node)} {fuel : Nat} {id r : Id}
    (h : root_of_aux fuel nodes id = some r) :
    ∃ w, walkAux fuel nodes id = id :: w := by
  obtain ⟨f, n, hfeq, hl⟩ := root_of_aux_succ_shape h
  subst hfeq
  rw [walkAux_succ_some hl]
  split_ifs with hp
  · exact ⟨[], rfl⟩
  · exact ⟨walkAux f nodes n.parent, rfl⟩

/-- C3: on a registered id, the find used by all public operations succeeds
and performs full path compression: afterwards the starting node and every
node visited on the walk to the root point directly at the representative,
and a subsequent find from any of them reaches the root with fuel 2 (a
single hop) without further mutation. -/
theorem C3_path_compression {α : Type} [DecidableEq α] (s : DisjointSets α)
    (id : Id) (n : Node) (hwf : WF s) (hl : alookup s.nodes id = some n) :
    ∃ r nodes', find_repr_id s id = some (r, { s with nodes := nodes' }) ∧
      RootIs s.nodes id r ∧
      id ∈ walkAux s.nodes.length s.nodes id ∧
      (∀ j ∈ walkAux s.nodes.length s.nodes id,
        ∃ nj, alookup nodes' j = some nj ∧ nj.parent = r) ∧
      (∀ j ∈ walkAux s.nodes.length s.nodes id,
        find_repr_aux 2 nodes' j = some (r, nodes')) := by
  obtain ⟨r, nodes', hfind, hlen, facts, hwf'⟩ := find_repr_id_spec hwf hl
  obtain ⟨nr, hnr, hnrp⟩ := RootIs_root facts.root
  have hiek : IEK s.nodes := hwf.2.2.2.2.1
  have hrep : nr.is_representative = true := (is_representative_iff hiek hnr).mpr hnrp
  have hnr' : alookup nodes' r = some nr := facts.rep_frame r nr hnr hrep
  have hnd' : (nodes'.map Prod.fst).Nodup := by
    rw [facts.keys_eq]
    exact hwf.1
  have hiek' : IEK nodes' := facts.iek
  have hmemw : id ∈ walkAux s.nodes.length s.nodes id := by
    obtain ⟨f, hf⟩ := facts.root
    have hf' := RootIs_fuel_length facts.root
    obtain ⟨w, hw⟩ := walk_head hf'
    rw [hw]
    exact List.mem_cons_self _ _
  refine ⟨r, nodes', hfind, facts.root, hmemw, facts.compressed, ?_⟩
  intro j hj
  obtain ⟨nj, hnj, hnjp⟩ := facts.compressed j hj
  by_cases hjr : j = r
  · rw [hjr]
    have h1 : find_repr_aux (1 + 1) nodes' r = some (nr.item, nodes') :=
      find_repr_aux_rep hnr' hrep
    rw [hiek' _ (alookup_mem hnr')] at h1
    exact h1
  · have hitem : nj.item = j := hiek' _ (alookup_mem hnj)
    have hrepj : nj.is_representative = false := by
      show (nj.item == nj.parent) = false
      rw [hitem, hnjp]
      exact beq_eq_false_iff_ne.mpr hjr
    have hrec : find_repr_aux 1 nodes' nj.parent = some (r, nodes') := by
      rw [hnjp]
      have h1 : find_repr_aux (0 + 1) nodes' r = some (nr.item, nodes') :=
        find_repr_aux_rep hnr' hrep
      rw [hiek' _ (alookup_mem hnr')] at h1
      exact h1
    have h2 : find_repr_aux (1 + 1) nodes' j = some (r, setNodeParent nodes' j r) :=
      find_repr_aux_nonrep hnj hrepj hrec
    rw [setNodeParent_eq_self hnd' hnj hnjp] at h2
    exact h2

/-- C3 witness: a three-node chain `2 → 1 → 0`; find on `2` compresses both
visited nodes onto the root `0`. -/
theorem C3_path_compression_witness :
    ∃ r nodes', find_repr_id (⟨[(2, ⟨2, 1, 1⟩), (1, ⟨1, 0, 1⟩), (0, ⟨0, 0, 3⟩)],
        [(2, 2), (1, 1), (0, 0)], 3⟩ : DisjointSets Nat) 2 =
      some (r, { (⟨[(2, ⟨2, 1, 1⟩), (1, ⟨1, 0, 1⟩), (0, ⟨0, 0, 3⟩)],
        [(2, 2), (1, 1), (0, 0)], 3⟩ : DisjointSets Nat) with nodes := nodes' }) ∧
      RootIs [(2, ⟨2, 1, 1⟩), (1, ⟨1, 0, 1⟩), (0, ⟨0, 0, 3⟩)] 2 r ∧
      2 ∈ walkAux 3 [(2, ⟨2, 1, 1⟩), (1, ⟨1, 0, 1⟩), (0, ⟨0, 0, 3⟩)] 2 ∧
      (∀ j ∈ walkAux 3 [(2, ⟨2, 1, 1⟩), (1, ⟨1, 0, 1⟩), (0, ⟨0, 0, 3⟩)] 2,
        ∃ nj, alookup nodes' j = some nj ∧ nj.parent = r) ∧
      (∀ j ∈ walkAux 3 [(2, ⟨2, 1, 1⟩), (1, ⟨1, 0, 1⟩), (0, ⟨0, 0, 3⟩)] 2,
        find_repr_aux 2 nodes' j = some (r, nodes')) :=
  C3_path_compression _ 2 ⟨2, 1, 1⟩ (by decide) (by decide)

/-- C2 counterexample: on two fresh singletons, `union 0 1` merges equal-rank
roots; the claim says a rank changes only for the *losing* root (the one that
is re-parented), whose rank becomes the sum.  In fact node `0` — the surviving
root, whose parent stays `0` — has its rank changed from 1 to 2, while node
`1` — the losing root, re-parented from `1` to `0` — keeps rank 1. -/
theorem C2_rank_counterexample :
    stepState (⟨[(1, ⟨1, 1, 1⟩), (0, ⟨0, 0, 1⟩)], [(1, 1), (0, 0)], 2⟩ :
        DisjointSets Nat) (.unionOp 0 1) =
      some ⟨[(1, ⟨1, 0, 1⟩), (0, ⟨0, 0, 2⟩)], [(1, 1), (0, 0)], 2⟩ ∧
    alookup [(1, (⟨1, 1, 1⟩ : Node)), (0, ⟨0, 0, 1⟩)] 0 = some ⟨0, 0, 1⟩ ∧
    alookup [(1, (⟨1, 0, 1⟩ : Node)), (0, ⟨0, 0, 2⟩)] 0 = some ⟨0, 0, 2⟩ ∧
    alookup [(1, (⟨1, 0, 1⟩ : Node)), (0, ⟨0, 0, 2⟩)] 1 = some ⟨1, 0, 1⟩ := by
  refine ⟨?_, by decide, by decide, by decide⟩
  decide

/-- C2 amended: the counterexample `C2_rank_counterexample` shows the claim
as stated is false — the rank that changes belongs to the *surviving* root,
not the losing one.  Amended: every node's rank is non-decreasing across any
run of operations, and a node's rank changes in a single step only when that
step is a `union` in which the node is the surviving root — it is its own
parent before and after — and its new rank is the sum of the two merged
roots' ranks (the losing root, which now points at it, keeps the other
summand as its rank). -/
theorem C2_rank_monotone_surviving_root {α : Type} [DecidableEq α] :
    (∀ (s t : DisjointSets α) (ops : List (Op α)) (k : Id) (m m' : Node),
      WF s → runOps s ops = some t → alookup s.nodes k = some m →
      alookup t.nodes k = some m' → m.rank ≤ m'.rank) ∧
    (∀ (s s' : DisjointSets α) (op : Op α) (k : Id) (m m' : Node),
      WF s → stepState s op = some s' → alookup s.nodes k = some m →
      alookup s'.nodes k = some m' → m.rank ≠ m'.rank →
      (∃ a b, op = Op.unionOp a b) ∧ m.parent = k ∧ m'.parent = k ∧
        (∃ l nl, l ≠ k ∧ alookup s'.nodes l = some nl ∧ nl.parent = k ∧
          m'.rank = m.rank + nl.rank)) := by
  constructor
  · intro s t ops k m m' hwf hrun hm hm'
    obtain ⟨-, -, hranks, -⟩ := runOps_spec hwf hrun
    obtain ⟨m'', hm'', hle⟩ := hranks k m hm
    have he : m'' = m' := Option.some.inj (hm''.symm.trans hm')
    rw [← he]
    exact hle
  · intro s s' op k m m' hwf hstep hm hm' hne
    cases op with
    | makeSetOp a =>
      exfalso
      by_cases hc : contains s a = true
      · have hs : stepState s (.makeSetOp a) = some s := by
          show some (make_set s a).2 = some s
          rw [make_set_of_contains hc]
        obtain rfl : s' = s := Option.some.inj (hstep.symm.trans hs)
        exact hne (congrArg Node.rank (Option.some.inj (hm.symm.trans hm')))
      · have hcf : contains s a = false := by
          cases hcb : contains s a
          · rfl
          · exact absurd hcb hc
        have hs : stepState s (.makeSetOp a) = some
            ({ nodes := (s.next_id, Node.new s.next_id) :: s.nodes,
               item_to_id := (a, s.next_id) :: s.item_to_id,
               next_id := s.next_id + 1 } : DisjointSets α) := by
          show some (make_set s a).2 = _
          rw [make_set_of_not_contains hcf]
        obtain rfl : s' =
            ({ nodes := (s.next_id, Node.new s.next_id) :: s.nodes,
               item_to_id := (a, s.next_id) :: s.item_to_id,
               next_id := s.next_id + 1 } : DisjointSets α) :=
          Option.some.inj (hstep.symm.trans hs)
        have hkk : s.next_id ≠ k := by
          intro hcc
          exact next_id_fresh hwf (hcc ▸ alookup_isSome_iff.mp (by rw [hm]; rfl))
        have hm'2 : alookup ((s.next_id, Node.new s.next_id) :: s.nodes) k = some m :=
          by rw [alookup_cons_of_ne _ hkk]; exact hm
        exact hne (congrArg Node.rank (Option.some.inj (hm'2.symm.trans hm')))
    | unionOp a b =>
      cases hx : alookup s.item_to_id a with
      | none =>
        exfalso
        have hs : stepState s (.unionOp a b) = some s := by
          show (union s a b).map (fun r => r.2) = some s
          rw [union_err_left hx]
          rfl
        obtain rfl : s' = s := Option.some.inj (hstep.symm.trans hs)
        exact hne (congrArg Node.rank (Option.some.inj (hm.symm.trans hm')))
      | some xi =>
        cases hy : alookup s.item_to_id b with
        | none =>
          exfalso
          have hs : stepState s (.unionOp a b) = some s := by
            show (union s a b).map (fun r => r.2) = some s
            rw [union_err_right hy]
            rfl
          obtain rfl : s' = s := Option.some.inj (hstep.symm.trans hs)
          exact hne (congrArg Node.rank (Option.some.inj (hm.symm.trans hm')))
        | some yi =>
          obtain ⟨rx, ry, s'', hu, hrx, hry, hitm, hnext, hlen, hwf', hsum, hbr⟩ :=
            union_cases hwf hx hy
          have hs : stepState s (.unionOp a b) = some s'' := by
            show (union s a b).map (fun r => r.2) = some s''
            rw [hu]
            rfl
          obtain rfl : s' = s'' := Option.some.inj (hstep.symm.trans hs)
          rcases hbr with ⟨-, -, hframe⟩ |
            ⟨hrne, nx, ny, hnx, hny, hnxp, hnyp, hlk⟩
          · exfalso
            obtain ⟨m2, hm2, -, hrk⟩ := hframe k m hm
            have he : m2 = m' := Option.some.inj (hm2.symm.trans hm')
            exact hne (by rw [← he]; exact hrk.symm)
          · rcases hlk with ⟨hcmp, hl1, hl2, hfr, -⟩ | ⟨hcmp, hl1, hl2, hfr, -⟩
            · by_cases hkw : k = ry
              · subst hkw
                have hem : m = ny := Option.some.inj (hm.symm.trans hny)
                have hem' : m' = ny.set_rank (nx.rank + ny.rank) :=
                  Option.some.inj (hm'.symm.trans hl2)
                refine ⟨⟨a, b, rfl⟩, by rw [hem]; exact hnyp, ?_, rx,
                  nx.set_parent k, fun hc => hrne hc, hl1,
                  Node.set_parent_parent _ _, ?_⟩
                · rw [hem', Node.set_rank_parent]
                  exact hnyp
                · rw [hem', Node.set_rank_rank, hem, Node.set_parent_rank]
                  omega
              · exfalso
                obtain ⟨m2, hm2, hrk⟩ := hfr k m hm hkw
                have he : m2 = m' := Option.some.inj (hm2.symm.trans hm')
                exact hne (by rw [← he]; exact hrk.symm)
            · by_cases hkw : k = rx
              · subst hkw
                have hem : m = nx := Option.some.inj (hm.symm.trans hnx)
                have hem' : m' = nx.set_rank (nx.rank + ny.rank) :=
                  Option.some.inj (hm'.symm.trans hl2)
                refine ⟨⟨a, b, rfl⟩, by rw [hem]; exact hnxp, ?_, ry,
                  ny.set_parent k, fun hc => hrne hc.symm, hl1,
                  Node.set_parent_parent _ _, ?_⟩
                · rw [hem', Node.set_rank_parent]
                  exact hnxp
                · rw [hem', Node.set_rank_rank, hem, Node.set_parent_rank]
              · exfalso
                obtain ⟨m2, hm2, hrk⟩ := hfr k m hm hkw
                have he : m2 = m' := Option.some.inj (hm2.symm.trans hm')
                exact hne (by rw [← he]; exact hrk.symm)
    | sameSetOp a b =>
      exfalso
      cases hx : alookup s.item_to_id a with
      | none =>
        have hs : stepState s (.sameSetOp a b) = some s := by
          show (same_set s a b).map (fun r => r.2) = some s
          rw [same_set_err_left hx]
          rfl
        obtain rfl : s' = s := Option.some.inj (hstep.symm.trans hs)
        exact hne (congrArg Node.rank (Option.some.inj (hm.symm.trans hm')))
      | some xi =>
        cases hy : alookup s.item_to_id b with
        | none =>
          have hs : stepState s (.sameSetOp a b) = some s := by
            show (same_set s a b).map (fun r => r.2) = some s
            rw [same_set_err_right hy]
            rfl
          obtain rfl : s' = s := Option.some.inj (hstep.symm.trans hs)
          exact hne (congrArg Node.rank (Option.some.inj (hm.symm.trans hm')))
        | some yi =>
          obtain ⟨rx, ry, s'', hq, hrx, hry, hitm, hnext, hlen, hwf', hsum, hroots,
            hframe⟩ := same_set_spec hwf hx hy
          have hs : stepState s (.sameSetOp a b) = some s'' := by
            show (same_set s a b).map (fun r => r.2) = some s''
            rw [hq]
            rfl
          obtain rfl : s' = s'' := Option.some.inj (hstep.symm.trans hs)
          obtain ⟨m2, hm2, -, hrk⟩ := hframe k m hm
          have he : m2 = m' := Option.some.inj (hm2.symm.trans hm')
          exact hne (by rw [← he]; exact hrk.symm)
    | setSizeOp a =>
      exfalso
      cases hx : alookup s.item_to_id a with
      | none =>
        have hs : stepState s (.setSizeOp a) = some s := by
          show (set_size s a).map (fun r => r.2) = some s
          rw [set_size_err hx]
          rfl
        obtain rfl : s' = s := Option.some.inj (hstep.symm.trans hs)
        exact hne (congrArg Node.rank (Option.some.inj (hm.symm.trans hm')))
      | some xi =>
        obtain ⟨r, n, s'', hq, hr, hn, hnp, hitm, hnext, hlen, hwf', hsum, hroots,
          hframe⟩ := set_size_spec hwf hx
        have hs : stepState s (.setSizeOp a) = some s'' := by
          show (set_size s a).map (fun r => r.2) = some s''
          rw [hq]
          rfl
        obtain rfl : s' = s'' := Option.some.inj (hstep.symm.trans hs)
        obtain ⟨m2, hm2, -, hrk⟩ := hframe k m hm
        have he : m2 = m' := Option.some.inj (hm2.symm.trans hm')
        exact hne (by rw [← he]; exact hrk.symm)

/-- C2 amended witness: the two-singleton union, where node 0's rank grows
from 1 to 2 as the surviving root. -/
theorem C2_rank_monotone_surviving_root_witness :
    ((⟨0, 0, 1⟩ : Node).rank ≤ (⟨0, 0, 2⟩ : Node).rank) ∧
    ((∃ a b, Op.unionOp 0 1 = Op.unionOp a b) ∧
      (⟨0, 0, 1⟩ : Node).parent = 0 ∧ (⟨0, 0, 2⟩ : Node).parent = 0 ∧
      (∃ l nl, l ≠ 0 ∧
        alookup [(1, (⟨1, 0, 1⟩ : Node)), (0, ⟨0, 0, 2⟩)] l = some nl ∧
        nl.parent = 0 ∧
        (⟨0, 0, 2⟩ : Node).rank = (⟨0, 0, 1⟩ : Node).rank + nl.rank)) :=
  ⟨(C2_rank_monotone_surviving_root (α := Nat)).1
      ⟨[(1, ⟨1, 1, 1⟩), (0, ⟨0, 0, 1⟩)], [(1, 1), (0, 0)], 2⟩
      ⟨[(1, ⟨1, 0, 1⟩), (0, ⟨0, 0, 2⟩)], [(1, 1), (0, 0)], 2⟩
      [.unionOp 0 1] 0 ⟨0, 0, 1⟩ ⟨0, 0, 2⟩ (by decide) (by decide) (by decide)
      (by decide),
   (C2_rank_monotone_surviving_root (α := Nat)).2
      ⟨[(1, ⟨1, 1, 1⟩), (0, ⟨0, 0, 1⟩)], [(1, 1), (0, 0)], 2⟩
      ⟨[(1, ⟨1, 0, 1⟩), (0, ⟨0, 0, 2⟩)], [(1, 1), (0, 0)], 2⟩
      (.unionOp 0 1) 0 ⟨0, 0, 1⟩ ⟨0, 0, 2⟩ (by decide) (by decide) (by decide)
      (by decide) (by decide)⟩

/-- C6: across any sequence of operations from the empty structure,
`num_sets` is at most `num_items`, and the sum of the ranks of all
representative nodes (the sum of `set_size` over all representatives)
equals `num_items`. -/
theorem C6_size_invariant {α : Type} [DecidableEq α] (ops : List (Op α))
    (t : DisjointSets α)
    (h : runOps (DisjointSets.new : DisjointSets α) ops = some t) :
    num_sets t ≤ num_items t ∧ sum_rep_ranks t.nodes = num_items t := by
  obtain ⟨-, -, -, -, hsum, hlen⟩ := runOps_spec WF_new h
  have hs : sum_rep_ranks t.nodes = t.item_to_id.length := hsum rfl
  have hl : t.nodes.length = t.item_to_id.length := hlen rfl
  refine ⟨?_, hs⟩
  show (t.nodes.filter (fun kv => kv.2.is_representative)).length ≤
    t.item_to_id.length
  calc (t.nodes.filter (fun kv => kv.2.is_representative)).length
      ≤ t.nodes.length := List.length_filter_le _ _
    _ = t.item_to_id.length := hl

/-- C6 witness: a concrete run of four operations. -/
theorem C6_size_invariant_witness :
    runOps (DisjointSets.new : DisjointSets Nat)
      [.makeSetOp 0, .makeSetOp 1, .unionOp 0 1, .setSizeOp 0] =
      some ⟨[(1, ⟨1, 0, 1⟩), (0, ⟨0, 0, 2⟩)], [(1, 1), (0, 0)], 2⟩ ∧
    (num_sets (⟨[(1, ⟨1, 0, 1⟩), (0, ⟨0, 0, 2⟩)], [(1, 1), (0, 0)], 2⟩ :
        DisjointSets Nat) ≤
      num_items (⟨[(1, ⟨1, 0, 1⟩), (0, ⟨0, 0, 2⟩)], [(1, 1), (0, 0)], 2⟩ :
        DisjointSets Nat) ∧
      sum_rep_ranks [(1, (⟨1, 0, 1⟩ : Node)), (0, ⟨0, 0, 2⟩)] =
        num_items (⟨[(1, ⟨1, 0, 1⟩), (0, ⟨0, 0, 2⟩)], [(1, 1), (0, 0)], 2⟩ :
          DisjointSets Nat)) :=
  ⟨by decide, C6_size_invariant [.makeSetOp 0, .makeSetOp 1, .unionOp 0 1, .setSizeOp 0]
    ⟨[(1, ⟨1, 0, 1⟩), (0, ⟨0, 0, 2⟩)], [(1, 1), (0, 0)], 2⟩ (by decide)⟩

/-- C8: every operation preserves the invariant that the parent walk from any
registered node terminates at exactly one representative (unique root whose
only cycle is its self-loop), and that a node is a representative iff its
parent equals its own key; well-formedness is preserved. -/
theorem C8_parent_invariant {α : Type} [DecidableEq α] (s s' : DisjointSets α)
    (op : Op α) (hwf : WF s) (h : stepState s op = some s') :
    WF s' ∧
    (∀ kv ∈ s'.nodes, ∃ r nr, RootIs s'.nodes kv.1 r ∧
      alookup s'.nodes r = some nr ∧ nr.parent = r) ∧
    (∀ kv ∈ s'.nodes, ∀ r r', RootIs s'.nodes kv.1 r → RootIs s'.nodes kv.1 r' →
      r = r') ∧
    (∀ kv ∈ s'.nodes, kv.2.is_representative = true ↔ kv.2.parent = kv.1) := by
  obtain ⟨s'', hstep, hwf', -⟩ := stepState_spec hwf op
  obtain rfl : s' = s'' := Option.some.inj (h.symm.trans hstep)
  refine ⟨hwf', ?_, ?_, ?_⟩
  · intro kv hkv
    obtain ⟨ρ, hρ⟩ := Option.isSome_iff_exists.mp (hwf'.2.2.2.2.2.2.1 kv hkv)
    have hr : RootIs s'.nodes kv.1 ρ := ⟨_, hρ⟩
    obtain ⟨nr, hnr, hnrp⟩ := RootIs_root hr
    exact ⟨ρ, nr, hr, hnr, hnrp⟩
  · exact fun kv _ r r' h1 h2 => RootIs_unique h1 h2
  · intro kv hkv
    exact is_representative_iff hwf'.2.2.2.2.1 (mem_alookup hwf'.1 hkv)

/-- C8 witness: the union step on two singletons. -/
theorem C8_parent_invariant_witness :
    WF (⟨[(1, ⟨1, 0, 1⟩), (0, ⟨0, 0, 2⟩)], [(1, 1), (0, 0)], 2⟩ :
      DisjointSets Nat) ∧
    (∀ kv ∈ [(1, (⟨1, 0, 1⟩ : Node)), (0, ⟨0, 0, 2⟩)],
      ∃ r nr, RootIs [(1, (⟨1, 0, 1⟩ : Node)), (0, ⟨0, 0, 2⟩)] kv.1 r ∧
        alookup [(1, (⟨1, 0, 1⟩ : Node)), (0, ⟨0, 0, 2⟩)] r = some nr ∧
        nr.parent = r) ∧
    (∀ kv ∈ [(1, (⟨1, 0, 1⟩ : Node)), (0, ⟨0, 0, 2⟩)],
      ∀ r r', RootIs [(1, (⟨1, 0, 1⟩ : Node)), (0, ⟨0, 0, 2⟩)] kv.1 r →
        RootIs [(1, (⟨1, 0, 1⟩ : Node)), (0, ⟨0, 0, 2⟩)] kv.1 r' → r = r') ∧
    (∀ kv ∈ [(1, (⟨1, 0, 1⟩ : Node)), (0, ⟨0, 0, 2⟩)],
      kv.2.is_representative = true ↔ kv.2.parent = kv.1) :=
  C8_parent_invariant
    ⟨[(1, ⟨1, 1, 1⟩), (0, ⟨0, 0, 1⟩)], [(1, 1), (0, 0)], 2⟩
    ⟨[(1, ⟨1, 0, 1⟩), (0, ⟨0, 0, 2⟩)], [(1, 1), (0, 0)], 2⟩
    (.unionOp 0 1) (by decide) (by decide)

/-- C10: from any well-formed state, no public operation panics — every
internal unwrap succeeds and `stepState` returns `some` — and the resulting
state again satisfies the key-closure invariants: every id stored in
`item_to_id` is a key of `nodes`, and every parent id stored in a node is a
key of `nodes`. -/
theorem C10_no_panic {α : Type} [DecidableEq α] (s : DisjointSets α) (op : Op α)
    (hwf : WF s) :
    ∃ s', stepState s op = some s' ∧
      (∀ kv ∈ s'.item_to_id, (alookup s'.nodes kv.2).isSome) ∧
      (∀ kv ∈ s'.nodes, (alookup s'.nodes kv.2.parent).isSome) ∧
      WF s' := by
  obtain ⟨s', hstep, hwf', -⟩ := stepState_spec hwf op
  exact ⟨s', hstep, hwf'.2.2.1, hwf'.2.2.2.1, hwf'⟩

/-- C10 witness: a union step on a three-node state. -/
theorem C10_no_panic_witness :
    ∃ s', stepState (⟨[(2, ⟨2, 1, 1⟩), (1, ⟨1, 0, 1⟩), (0, ⟨0, 0, 3⟩)],
        [(2, 2), (1, 1), (0, 0)], 3⟩ : DisjointSets Nat) (.unionOp 2 0) = some s' ∧
      (∀ kv ∈ s'.item_to_id, (alookup s'.nodes kv.2).isSome) ∧
      (∀ kv ∈ s'.nodes, (alookup s'.nodes kv.2.parent).isSome) ∧
      WF s' :=
  C10_no_panic _ (.unionOp 2 0) (by decide)

/-- C9: `same_set` and `set_size` on registered arguments succeed, never
change any node's rank or item, never change `item_to_id` or `next_id`, and
never change the partition: for all items, membership in the same set is
identical before and after the call; only parent pointers may change. -/
theorem C9_query_frame {α : Type} [DecidableEq α] (s : DisjointSets α) (x y : α)
    (xi yi : Id) (hwf : WF s)
    (hx : alookup s.item_to_id x = some xi) (hy : alookup s.item_to_id y = some yi) :
    (∃ b s', same_set s x y = some (.ok b, s') ∧ QueryFrame s s') ∧
    (∃ v s', set_size s x = some (.ok v, s') ∧ QueryFrame s s') := by
  constructor
  · obtain ⟨rx, ry, s', hq, hrx, hry, hitm, hnext, hlen, hwf', hsum, hroots, hframe⟩ :=
      same_set_spec hwf hx hy
    refine ⟨_, s', hq, hitm, hnext, hframe, ?_⟩
    intro a b
    rw [InSameSet_via_map hwf hitm (fun ρ => ρ) hroots a b]
    exact InSameSet_iff_exists a b
  · obtain ⟨r, n, s', hq, hr, hn, hnp, hitm, hnext, hlen, hwf', hsum, hroots, hframe⟩ :=
      set_size_spec hwf hx
    refine ⟨_, s', hq, hitm, hnext, hframe, ?_⟩
    intro a b
    rw [InSameSet_via_map hwf hitm (fun ρ => ρ) hroots a b]
    exact InSameSet_iff_exists a b

/-- C9 witness: queries on a three-node chain. -/
theorem C9_query_frame_witness :
    (∃ b s', same_set (⟨[(2, ⟨2, 1, 1⟩), (1, ⟨1, 0, 1⟩), (0, ⟨0, 0, 3⟩)],
        [(2, 2), (1, 1), (0, 0)], 3⟩ : DisjointSets Nat) 2 0 =
        some (.ok b, s') ∧
      QueryFrame (⟨[(2, ⟨2, 1, 1⟩), (1, ⟨1, 0, 1⟩), (0, ⟨0, 0, 3⟩)],
        [(2, 2), (1, 1), (0, 0)], 3⟩ : DisjointSets Nat) s') ∧
    (∃ v s', set_size (⟨[(2, ⟨2, 1, 1⟩), (1, ⟨1, 0, 1⟩), (0, ⟨0, 0, 3⟩)],
        [(2, 2), (1, 1), (0, 0)], 3⟩ : DisjointSets Nat) 2 =
        some (.ok v, s') ∧
      QueryFrame (⟨[(2, ⟨2, 1, 1⟩), (1, ⟨1, 0, 1⟩), (0, ⟨0, 0, 3⟩)],
        [(2, 2), (1, 1), (0, 0)], 3⟩ : DisjointSets Nat) s') :=
  C9_query_frame _ 2 0 2 0 (by decide) (by decide) (by decide)

theorem InSameSet_run {ops : List (Op α)} {s t : DisjointSets α} (hwf : WF s)
    (hrun : runOps s ops = some t) {a b : α} (h : InSameSet s a b) :
    InSameSet t a b := by
  obtain ⟨-, hitems, -, hroots, -⟩ := runOps_spec hwf hrun
  obtain ⟨ia, ib, r, h1, h2, h3, h4⟩ := h
  obtain ⟨ρ', h3', h4'⟩ := hroots ia ib r h3 h4
  exact ⟨ia, ib, ρ', hitems a ia h1, hitems b ib h2, h3', h4'⟩

/-- C7: `union x y` and `union y x` applied to the same starting state
produce the same final partition — the same same-set relation over all
registered items — although the surviving representative may differ; after
either call, `x` and `y` are in the same set, and `same_set x y` returns
`true` after any further sequence of operations from either resulting
state. -/
theorem C7_union_commutative {α : Type} [DecidableEq α] (s sxy syx : DisjointSets α)
    (x y : α) (xi yi : Id) (hwf : WF s)
    (hx : alookup s.item_to_id x = some xi) (hy : alookup s.item_to_id y = some yi)
    (hxy : union s x y = some (.ok (), sxy)) (hyx : union s y x = some (.ok (), syx)) :
    (∀ a b : α, InSameSet sxy a b ↔ InSameSet syx a b) ∧
    InSameSet sxy x y ∧ InSameSet syx x y ∧
    (∀ ops t, runOps sxy ops = some t →
      ∃ t', same_set t x y = some (.ok true, t')) ∧
    (∀ ops t, runOps syx ops = some t →
      ∃ t', same_set t x y = some (.ok true, t')) := by
  obtain ⟨rx, ry, s1, hu1, hrx, hry, hitm1, hnext1, hlen1, hwf1, hsum1, hbr1⟩ :=
    union_cases hwf hx hy
  have hs1 : s1 = sxy := congrArg Prod.snd (Option.some.inj (hu1.symm.trans hxy))
  subst hs1
  obtain ⟨q1, q2, s2, hu2, hq1, hq2, hitm2, hnext2, hlen2, hwf2, hsum2, hbr2⟩ :=
    union_cases hwf hy hx
  have hs2 : s2 = syx := congrArg Prod.snd (Option.some.inj (hu2.symm.trans hyx))
  subst hs2
  have e1 : q1 = ry := RootIs_unique hq1 hry
  have e2 : q2 = rx := RootIs_unique hq2 hrx
  rw [e1, e2] at hbr2
  have hmain : (∀ a b : α, InSameSet s1 a b ↔ InSameSet s2 a b) ∧
      InSameSet s1 x y ∧ InSameSet s2 x y := by
    rcases hbr1 with ⟨hreq, hroots1, -⟩ | ⟨hrne, nx1, ny1, hnx1, hny1, hnxp1, hnyp1, hlk1⟩
    · rcases hbr2 with ⟨-, hroots2, -⟩ | ⟨hrne2, -⟩
      · refine ⟨?_, ?_, ?_⟩
        · intro a b
          rw [InSameSet_via_map hwf hitm1 (fun ρ => ρ) hroots1 a b,
            InSameSet_via_map hwf hitm2 (fun ρ => ρ) hroots2 a b]
        · exact (InSameSet_via_map hwf hitm1 (fun ρ => ρ) hroots1 x y).mpr
            ⟨xi, yi, rx, ry, hx, hy, hrx, hry, hreq⟩
        · exact (InSameSet_via_map hwf hitm2 (fun ρ => ρ) hroots2 x y).mpr
            ⟨xi, yi, rx, ry, hx, hy, hrx, hry, hreq⟩
      · exact absurd hreq.symm hrne2
    · rcases hbr2 with ⟨hreq2, -⟩ | ⟨hrne2, nx2, ny2, hnx2, hny2, hnxp2, hnyp2, hlk2⟩
      · exact absurd hreq2.symm hrne
      · have h1 : ∃ l1 w1, ((l1 = rx ∧ w1 = ry) ∨ (l1 = ry ∧ w1 = rx)) ∧
            ∀ j ρ, RootIs s.nodes j ρ →
              RootIs s1.nodes j (if ρ = l1 then w1 else ρ) := by
          rcases hlk1 with ⟨-, -, -, -, hroots1⟩ | ⟨-, -, -, -, hroots1⟩
          · exact ⟨rx, ry, Or.inl ⟨rfl, rfl⟩, hroots1⟩
          · exact ⟨ry, rx, Or.inr ⟨rfl, rfl⟩, hroots1⟩
        have h2 : ∃ l2 w2, ((l2 = rx ∧ w2 = ry) ∨ (l2 = ry ∧ w2 = rx)) ∧
            ∀ j ρ, RootIs s.nodes j ρ →
              RootIs s2.nodes j (if ρ = l2 then w2 else ρ) := by
          rcases hlk2 with ⟨-, -, -, -, hroots2⟩ | ⟨-, -, -, -, hroots2⟩
          · exact ⟨ry, rx, Or.inr ⟨rfl, rfl⟩, hroots2⟩
          · exact ⟨rx, ry, Or.inl ⟨rfl, rfl⟩, hroots2⟩
        obtain ⟨l1, w1, hlw1, hroots1⟩ := h1
        obtain ⟨l2, w2, hlw2, hroots2⟩ := h2
        have hF1 : (if rx = l1 then w1 else rx) = (if ry = l1 then w1 else ry) := by
          rcases hlw1 with ⟨rfl, rfl⟩ | ⟨rfl, rfl⟩
          · rw [if_pos rfl, if_neg (fun hc => hrne hc.symm)]
          · rw [if_neg hrne, if_pos rfl]
        have hF2 : (if rx = l2 then w2 else rx) = (if ry = l2 then w2 else ry) := by
          rcases hlw2 with ⟨rfl, rfl⟩ | ⟨rfl, rfl⟩
          · rw [if_pos rfl, if_neg (fun hc => hrne hc.symm)]
          · rw [if_neg hrne, if_pos rfl]
        refine ⟨?_, ?_, ?_⟩
        · intro a b
          rw [InSameSet_via_map hwf hitm1 (fun ρ => if ρ = l1 then w1 else ρ)
              hroots1 a b,
            InSameSet_via_map hwf hitm2 (fun ρ => if ρ = l2 then w2 else ρ)
              hroots2 a b]
          simp only [collapse_agree hrne hlw1 hlw2]
        · exact (InSameSet_via_map hwf hitm1 (fun ρ => if ρ = l1 then w1 else ρ)
            hroots1 x y).mpr ⟨xi, yi, rx, ry, hx, hy, hrx, hry, hF1⟩
        · exact (InSameSet_via_map hwf hitm2 (fun ρ => if ρ = l2 then w2 else ρ)
            hroots2 x y).mpr ⟨xi, yi, rx, ry, hx, hy, hrx, hry, hF2⟩
  obtain ⟨hiff, hin1, hin2⟩ := hmain
  refine ⟨hiff, hin1, hin2, ?_, ?_⟩
  · intro ops t hrun
    have hwft : WF t := (runOps_spec hwf1 hrun).1
    obtain ⟨ia, ib, r, ha1, ha2, ha3, ha4⟩ := InSameSet_run hwf1 hrun hin1
    exact same_set_true_of_roots hwft ha1 ha2 ha3 ha4
  · intro ops t hrun
    have hwft : WF t := (runOps_spec hwf2 hrun).1
    obtain ⟨ia, ib, r, ha1, ha2, ha3, ha4⟩ := InSameSet_run hwf2 hrun hin2
    exact same_set_true_of_roots hwft ha1 ha2 ha3 ha4

/-- C7 witness: the two orders of union on two fresh singletons; the
surviving representative differs (0 versus 1) but the partitions agree. -/
theorem C7_union_commutative_witness :
    (∀ a b : Nat,
      InSameSet (⟨[(1, ⟨1, 0, 1⟩), (0, ⟨0, 0, 2⟩)], [(1, 1), (0, 0)], 2⟩ :
        DisjointSets Nat) a b ↔
      InSameSet (⟨[(1, ⟨1, 1, 2⟩), (0, ⟨0, 1, 1⟩)], [(1, 1), (0, 0)], 2⟩ :
        DisjointSets Nat) a b) ∧
    InSameSet (⟨[(1, ⟨1, 0, 1⟩), (0, ⟨0, 0, 2⟩)], [(1, 1), (0, 0)], 2⟩ :
      DisjointSets Nat) 0 1 ∧
    InSameSet (⟨[(1, ⟨1, 1, 2⟩), (0, ⟨0, 1, 1⟩)], [(1, 1), (0, 0)], 2⟩ :
      DisjointSets Nat) 0 1 ∧
    (∀ ops t, runOps (⟨[(1, ⟨1, 0, 1⟩), (0, ⟨0, 0, 2⟩)], [(1, 1), (0, 0)], 2⟩ :
        DisjointSets Nat) ops = some t →
      ∃ t', same_set t 0 1 = some (.ok true, t')) ∧
    (∀ ops t, runOps (⟨[(1, ⟨1, 1, 2⟩), (0, ⟨0, 1, 1⟩)], [(1, 1), (0, 0)], 2⟩ :
        DisjointSets Nat) ops = some t →
      ∃ t', same_set t 0 1 = some (.ok true, t')) :=
  C7_union_commutative
    ⟨[(1, ⟨1, 1, 1⟩), (0, ⟨0, 0, 1⟩)], [(1, 1), (0, 0)], 2⟩
    ⟨[(1, ⟨1, 0, 1⟩), (0, ⟨0, 0, 2⟩)], [(1, 1), (0, 0)], 2⟩
    ⟨[(1, ⟨1, 1, 2⟩), (0, ⟨0, 1, 1⟩)], [(1, 1), (0, 0)], 2⟩
    0 1 0 1 (by decide) (by decide) (by decide) rfl rfl

end UnionFindRS
